import Mathlib

/-!
Shallow embedding of `redcap_branch_parser` (files
`redcap_branch_parser/branching_logic_parser.py`, `redcap_branch_parser/myfield.py`).

The program is a three stage pipeline over REDCap branching-logic strings:
1. `create_ast` (pyparsing grammar `__redcap_branching_logic_grammar` +
   `parse_string(...).as_list()`) turns the input string into a nested list of
   tokens (`myField` objects, operator / literal strings, nested lists);
2. `field_value_lookup` (`__field_value_lookup`) replaces every comparison
   `(myField, op, literal)` by a boolean obtained by looking the field up in a
   data source and comparing strings;
3. `boolean_expr_evaluate` (`__boolean_expr_evaluate`) folds the resulting
   boolean/connective tree down to one boolean with a value stack and a
   pending-connective slot.

Python runtime failures are modelled by an explicit error type `Err`
(`KeyError`/`TypeError`/`IndexError` and the data-source `KeyError`, which is a
`LookupError` subclass, is modelled separately as `lookupError`).  The
pyparsing machinery is modelled as a recursive-descent parser over `List Char`
(pyparsing's `MatchFirst` is ordered choice with backtracking, exactly PEG
ordered choice); a fuel argument makes the mutually recursive grammar levels
structurally terminating, with fuel large enough never to run out on any call
made by `create_ast_as_list`.
-/

namespace BLP

/-- Data model of `myfield.py` / the `myField` class duplicated in
`branching_logic_parser.py`: a field name with optional event and checkbox
qualifiers. -/
structure myField where
  field : String
  event : Option String := none
  check : Option String := none
deriving Repr, DecidableEq


/-- A token of the list-based AST (`parse_string(...).as_list()`) and of the
substituted tree: Python values flowing through the pipeline are strings,
`myField` objects, booleans and nested lists. -/
inductive PTok where
  | s    : String → PTok
  | mf   : myField → PTok
  | b    : Bool → PTok
  | nest : List PTok → PTok
deriving Repr


/-- Errors raised by the pipeline.  `syntaxError` models
`pyparsing.ParseException` (a `SyntaxError`-style failure carrying the
offending position); `lookupError` models the `KeyError` (a `LookupError`
subclass) raised by `data_df[field_name]`; `keyError` the `KeyError` of
`op_lookup[...]`; `typeError` and `indexError` the corresponding Python
runtime errors. -/
inductive Err where
  | syntaxError (loc : Nat)
  | keyError
  | typeError
  | indexError
  | lookupError
deriving Repr, DecidableEq


/-- The external data source (`data_df`): a partial map from field names to
textual values; `none` models a missing key (Python raises `KeyError`). -/
def DS : Type := String → Option String


/-! ### The pyparsing model

State of the scanner: the not-yet-consumed suffix of the input together with
the character just before it (pyparsing's `Keyword` look-behind). -/

structure St where
  prev : Option Char
  rest : List Char
deriving Repr


/-- A parser: consumes a prefix of the state, or fails reporting the length of
the remaining input at the failure point (from which `create_ast_as_list`
computes the offending position, as `pyparsing` reports `loc`). -/
def P (α : Type) : Type := St → Except Nat (α × St)


def ppure {α : Type} (a : α) : P α := fun st => .ok (a, st)


def pbind {α β : Type} (p : P α) (f : α → P β) : P β := fun st =>
  match p st with
  | .ok (a, st1) => f a st1
  | .error e => .error e


instance : Monad P where
  pure := ppure
  bind := pbind


/-- Ordered choice (`pyparsing.MatchFirst`, the `|` combinator): try the first
alternative, on failure retry the second from the same position; the reported
failure is the one furthest into the input (pyparsing re-raises the
max-location exception), i.e. the smaller remaining length. -/
def palt {α : Type} (p q : P α) : P α := fun st =>
  match p st with
  | .ok r => .ok r
  | .error e1 =>
    match q st with
    | .ok r => .ok r
    | .error e2 => .error (min e1 e2)


/-- pyparsing's default skippable whitespace (`ParserElement.DEFAULT_WHITE_CHARS
= " \n\t"`). -/
def isWs (c : Char) : Bool := c = ' ' || c = '\n' || c = '\t'


def skipWsAux : Option Char → List Char → St
  | p, [] => ⟨p, []⟩
  | p, c :: cs => if isWs c then skipWsAux (some c) cs else ⟨p, c :: cs⟩


/-- Leading-whitespace skipping performed by every pyparsing leaf expression. -/
def skipWs (st : St) : St := skipWsAux st.prev st.rest


/-- Characters of `pp.alphanums + "_"` (the `Word` alphabet of the grammar). -/
def isWordChar (c : Char) : Bool := c.isAlpha || c.isDigit || c = '_'


/-- Characters of `DEFAULT_KEYWORD_CHARS = alphanums + "_$"` used by
`Keyword` / `CaselessKeyword` boundary checks. -/
def isIdentChar (c : Char) : Bool := c.isAlpha || c.isDigit || c = '_' || c = '$'


/-- `pp.Suppress(pp.Literal(c))` for a one-character literal. -/
def pSym (c : Char) : P Unit := fun st =>
  let st1 := skipWs st
  match st1.rest with
  | d :: ds => if d = c then .ok ((), ⟨some d, ds⟩) else .error st1.rest.length
  | [] => .error 0


/-- `pp.Word(pp.alphanums + "_")`: a maximal nonempty run of word characters. -/
def pWordAlnum : P String := fun st =>
  let st1 := skipWs st
  let w := st1.rest.takeWhile isWordChar
  match w with
  | [] => .error st1.rest.length
  | _ :: _ => .ok (String.mk w, ⟨w.getLast?, st1.rest.dropWhile isWordChar⟩)


/-- A character that does not terminate a `QuotedString` body: not the end
quote and not a line break (`multiline=False`). -/
def notQuoteEnd (z : Char) (d : Char) : Bool := !(d = z || d = '\n' || d = '\r')


/-- `pp.QuotedString(quote_char=y, end_quote_char=z)` with the defaults of the
source (no escapes, `multiline=False` so the t may not contain line
breaks, quotes stripped from the result, empty t allowed). -/
def pQuoted (y z : Char) : P String := fun st =>
  let st1 := skipWs st
  match st1.rest with
  | c :: cs =>
    if c = y then
      let t := cs.takeWhile (notQuoteEnd z)
      match cs.dropWhile (notQuoteEnd z) with
      | e :: es => if e = z then .ok (String.mk t, ⟨some e, es⟩)
                   else .error (e :: es).length
      | [] => .error 0
    else .error st1.rest.length
  | [] => .error 0


/-- `pp.oneOf(("=", "<>", ">", ">=", "<", "<="))`: alternatives matched longest
first (as `oneOf` builds its regular expression). -/
def pOneOfOps : P String := fun st =>
  let st1 := skipWs st
  match st1.rest with
  | c :: cs =>
    if c = '<' then
      if cs.head? = some '>' then .ok ("<>", ⟨some '>', cs.tail⟩)
      else if cs.head? = some '=' then .ok ("<=", ⟨some '=', cs.tail⟩)
      else .ok ("<", ⟨some '<', cs⟩)
    else if c = '>' then
      if cs.head? = some '=' then .ok (">=", ⟨some '=', cs.tail⟩)
      else .ok (">", ⟨some '>', cs⟩)
    else if c = '=' then .ok ("=", ⟨some '=', cs⟩)
    else .error (c :: cs).length
  | [] => .error 0


/-- The `Keyword` look-behind test on the character preceding the match
location (start of input passes). -/
def prevIsIdent : Option Char → Bool
  | some p => isIdentChar p
  | none => false


/-- `pp.CaselessKeyword(k)`: the keyword characters case-insensitively, with
both boundaries not in the keyword ident-chars; yields the c
`match_string`. -/
def pCaselessKw (k : List Char) (c : String) : P String := fun st =>
  let st1 := skipWs st
  if prevIsIdent st1.prev then
    .error st1.rest.length
  else
    let pre := st1.rest.take k.length
    if pre.map Char.toUpper = k then
      let rest2 := st1.rest.drop k.length
      match rest2.head? with
      | some n =>
        if isIdentChar n then .error st1.rest.length
        else .ok (c, ⟨pre.getLast?, rest2⟩)
      | none => .ok (c, ⟨pre.getLast?, rest2⟩)
    else .error st1.rest.length


/-- `pp.Keyword("!")` (case-sensitive, same boundary checks). -/
def pBang : P String := fun st =>
  let st1 := skipWs st
  if prevIsIdent st1.prev then
    .error st1.rest.length
  else
    match st1.rest with
    | c :: cs =>
      if c = '!' then
        match cs.head? with
        | some n =>
          if isIdentChar n then .error st1.rest.length
          else .ok ("!", ⟨some '!', cs⟩)
        | none => .ok ("!", ⟨some '!', cs⟩)
      else .error (c :: cs).length
    | [] => .error 0


/-! ### The grammar (`__redcap_branching_logic_grammar`)

`field = varcheck_in_event | variable_in_event | variable_in_check | variable
| value` with the parse actions `__create_my_event_check`,
`__create_my_event_field`, `__create_my_check`, `__create_my_field` building
`myField` objects, and `expression = Group(field + operator + value)`. -/

def pVariable : P PTok := do
  let s ← pQuoted '[' ']'
  pure (.mf ⟨s, none, none⟩)


def pValueStr : P String := palt (pQuoted '"' '"') (pQuoted '\'' '\'')


def pValue : P PTok := do
  let s ← pValueStr
  pure (.s s)


def pVariableInCheck : P PTok := do
  pSym '['
  let w ← pWordAlnum
  let cb ← pQuoted '(' ')'
  pSym ']'
  pure (.mf ⟨w, none, some cb⟩)


def pVariableInEvent : P PTok := do
  let e ← pQuoted '[' ']'
  let v ← pQuoted '[' ']'
  pure (.mf ⟨v, some e, none⟩)


def pVarcheckInEvent : P PTok := do
  let e ← pQuoted '[' ']'
  pSym '['
  let w ← pWordAlnum
  let cb ← pQuoted '(' ')'
  pSym ']'
  pure (.mf ⟨w, some e, some cb⟩)


def pField : P PTok :=
  palt pVarcheckInEvent (palt pVariableInEvent (palt pVariableInCheck
    (palt pVariable pValue)))


/-- `expression = pp.Group(field + operator + value)`. -/
def pExpression : P PTok := do
  let f ← pField
  let o ← pOneOfOps
  let v ← pValueStr
  pure (.nest [f, .s o, .s v])


/-- One left-associative binary level of `pp.infix_notation`:
`thisExpr = Group(lastExpr + (opExpr + lastExpr)[1, ...]) | lastExpr` — the
chain of same-level operations is collected into one flat group; with no
operation the operand is passed through ungrouped.  The fuel bounds the
repetition (each iteration consumes input, so fuel `≥` input length never runs
out). -/
def pBinTail (opP : P String) (elemP : P PTok) : Nat → List PTok → P (List PTok)
  | 0, acc => fun st => .ok (acc, st)
  | fuel+1, acc => fun st =>
    match (do let o ← opP; let e ← elemP; pure (o, e) : P (String × PTok)) st with
    | .error _ => .ok (acc, st)
    | .ok ((o, e), st1) => pBinTail opP elemP fuel (acc ++ [.s o, e]) st1


def pBinLevel (opP : P String) (elemP : P PTok) (fuel : Nat) : P PTok := fun st =>
  match elemP st with
  | .error e => .error e
  | .ok (a, st1) =>
    match pBinTail opP elemP fuel [] st1 with
    | .error e => .error e
    | .ok (tail, st2) =>
      match tail with
      | [] => .ok (a, st1)
      | _ :: _ => .ok (.nest (a :: tail), st2)


/-- The operator-precedence tower built by `pp.infix_notation(expression,
[(not_, 1, RIGHT), (operator, 2, LEFT), (and_, 2, LEFT), (or_, 2, LEFT)])`.
`lvl` selects the level: 0 = base operand (`expression`, or the parenthesised
grouping `infix_notation` adds), 1 = unary `!`, 2 = comparison-symbol level,
3 = `AND`, 4 = `OR` (the whole grammar).  Every recursive call strictly
decreases the fuel; `create_ast_as_list` supplies fuel that cannot run out. -/
def pLevel : Nat → Nat → P PTok
  | 0, _ => fun st => .error st.rest.length
  | fuel+1, lvl =>
    match lvl with
    | 0 => palt pExpression
        (do pSym '('; let r ← pLevel fuel 4; pSym ')'; pure r)
    | 1 => palt
        (do let bg ← pBang; let x ← pLevel fuel 1; pure (.nest [.s bg, x]))
        (pLevel fuel 0)
    | 2 => pBinLevel pOneOfOps (pLevel fuel 1) fuel
    | 3 => pBinLevel (pCaselessKw ['A', 'N', 'D'] "AND") (pLevel fuel 2) fuel
    | _ => pBinLevel (pCaselessKw ['O', 'R'] "OR") (pLevel fuel 3) fuel


/-- `__create_ast_as_list`: `self.grammar.parse_string(input_string).as_list()`.
`parse_string` is called without `parse_all`, so a matching prefix suffices and
any remaining input is ignored; the single top-level result is wrapped in the
outer `ParseResults` list.  A failure is a `pyparsing.ParseException`
(`SyntaxError`-class) carrying the offending position. -/
def create_ast_as_list (input_string : String) : Except Err (List PTok) :=
  let cs := input_string.toList
  match pLevel (cs.length + 64) 4 ⟨none, cs⟩ with
  | .ok (t, _) => .ok [t]
  | .error remaining => .error (.syntaxError (cs.length - remaining))


/-! ### The Substitution Stage (`__field_value_lookup`) -/

/-- `__redcap_lookup`: `str(data_df[str(field_name)])`; a missing key raises
`KeyError`, a `LookupError` subclass. -/
def redcap_lookup (field_name : String) (data_df : DS) : Except Err String :=
  match data_df field_name with
  | some v => .ok v
  | none => .error .lookupError


/-- The comparison table `op_lookup = {'=': op.eq, '<>': op.ne, '<': op.lt,
'>': op.gt, '<=': op.le, '>=': op.ge}` of `__field_value_lookup`. -/
inductive CmpOp where
  | eq | ne | lt | gt | le | ge
deriving Repr, DecidableEq


/-- `op_lookup[results[index + 1]]`: a string key not in the table raises
`KeyError`; a list is unhashable (`TypeError`); any other object is an absent
key (`KeyError`). -/
def cmp_op_lookup : PTok → Except Err CmpOp
  | .s "=" => .ok .eq
  | .s "<>" => .ok .ne
  | .s "<" => .ok .lt
  | .s ">" => .ok .gt
  | .s "<=" => .ok .le
  | .s ">=" => .ok .ge
  | .s _ => .error .keyError
  | .nest _ => .error .typeError
  | .mf _ => .error .keyError
  | .b _ => .error .keyError


/-- Python string ordering (lexicographic by code point), as used by
`op.lt` etc. on the two text operands: Lean's `String` order is exactly the
lexicographic order on the character lists. -/
def strLt (a b : String) : Bool := decide (a.toList < b.toList)


/-- `operator(field_value, expected)` where `field_value` is the looked-up
string and `expected = results[index + 2]` is whatever token follows the
operator.  Python compares a string with a non-string as unequal under
`==`/`!=` and raises `TypeError` under the order operators. -/
def apply_cmp : CmpOp → String → PTok → Except Err Bool
  | .eq, v, .s e => .ok (v == e)
  | .eq, _, _ => .ok false
  | .ne, v, .s e => .ok (v != e)
  | .ne, _, _ => .ok true
  | .lt, v, .s e => .ok (strLt v e)
  | .gt, v, .s e => .ok (strLt e v)
  | .le, v, .s e => .ok (strLt v e || v == e)
  | .ge, v, .s e => .ok (strLt e v || v == e)
  | _, _, _ => .error .typeError


/-- `__field_value_lookup(results, data_df)`: walk the level left to right
accumulating `scratch`.  A nested list is substituted recursively, a
one-element result being collapsed to its sole element; a `myField` is
resolved through the data source and compared against `results[index + 2]`
under `op_lookup[results[index + 1]]`, after which the whole level returns at
once (the `return scratch` inside the `myField` branch); the strings `'AND'`
and `'OR'` are kept; every other token is dropped. -/
def field_value_lookup : List PTok → DS → Except Err (List PTok)
  | [], _ => .ok []
  | .nest l :: rest, data_df =>
    match field_value_lookup l data_df with
    | .error e => .error e
    | .ok inner_layer =>
      let item := match inner_layer with
        | [x] => x
        | _ => PTok.nest inner_layer
      match field_value_lookup rest data_df with
      | .error e => .error e
      | .ok tail => .ok (item :: tail)
  | .mf result :: rest, data_df =>
    match rest with
    | [] => .error .indexError
    | nxt :: rest2 =>
      match cmp_op_lookup nxt with
      | .error e => .error e
      | .ok operator =>
        match rest2 with
        | [] => .error .indexError
        | expected :: _ =>
          match redcap_lookup result.field data_df with
          | .error e => .error e
          | .ok field_value =>
            match apply_cmp operator field_value expected with
            | .error e => .error e
            | .ok field_result => .ok [PTok.b field_result]
  | .s c :: rest, data_df =>
    if c = "AND" || c = "OR" then
      match field_value_lookup rest data_df with
      | .error e => .error e
      | .ok tail => .ok (.s c :: tail)
    else field_value_lookup rest data_df
  | .b _ :: rest, data_df => field_value_lookup rest data_df
termination_by l _ => sizeOf l
decreasing_by all_goals (simp_wf; try omega)


/-! ### The Boolean Evaluator (`__boolean_expr_evaluate`) -/

/-- `op_lookup = {'AND': op.and_, 'OR': op.or_}` — on booleans the bitwise
operators are conjunction and disjunction. -/
def bool_op_lookup (c : String) : Option (Bool → Bool → Bool) :=
  if c = "AND" then some (fun a b => a && b)
  else if c = "OR" then some (fun a b => a || b)
  else none


/-- `stack.pop()`: Python pops from the end of the list; an empty list raises
`IndexError`. -/
def popLast (stack : List Bool) : Option (Bool × List Bool) :=
  match stack.getLast? with
  | some x => some (x, stack.dropLast)
  | none => none


mutual


/-- `__boolean_expr_evaluate(expr)`: run the stack loop, then `return
stack[0]` — the first element of the final stack (Python `IndexError` when the
stack is empty). -/
def boolean_expr_evaluate (expr : List PTok) : Except Err Bool :=
  match beeGo expr [] none with
  | .error e => .error e
  | .ok stack =>
    match stack.head? with
    | some r => .ok r
    | none => .error .indexError
termination_by 4 * sizeOf expr + 1


/-- The `for x in expr` loop of `__boolean_expr_evaluate`: `stack` in Python
list order (append/pop at the right end), `pending` the `infix` slot.  A
boolean is appended; a nested list is evaluated recursively and its result
appended; a string is looked up in `op_lookup` (raising `KeyError` when it is
neither `'AND'` nor `'OR'`) and recorded as pending, `continue` skipping the
reduction step; any other value (none occurs in this program's trees) falls
through to the reduction step without a push. -/
def beeGo : List PTok → List Bool → Option (Bool → Bool → Bool) →
    Except Err (List Bool)
  | [], stack, _ => .ok stack
  | .b x :: rest, stack, pending => beeStep rest (stack ++ [x]) pending
  | .nest l :: rest, stack, pending =>
    match boolean_expr_evaluate l with
    | .error e => .error e
    | .ok v => beeStep rest (stack ++ [v]) pending
  | .s c :: rest, stack, _ =>
    match bool_op_lookup c with
    | some f => beeGo rest stack (some f)
    | none => .error .keyError
  | .mf _ :: rest, stack, pending => beeStep rest stack pending
termination_by l _ _ => 4 * sizeOf l


/-- The `if infix:` reduction after each loop body: pop the two most recent
values, apply the pending connective, push the result, clear the slot. -/
def beeStep (rest : List PTok) (stack : List Bool)
    (pending : Option (Bool → Bool → Bool)) : Except Err (List Bool) :=
  match pending with
  | none => beeGo rest stack none
  | some f =>
    match popLast stack with
    | none => .error .indexError
    | some (left, s1) =>
      match popLast s1 with
      | none => .error .indexError
      | some (right, s2) => beeGo rest (s2 ++ [f left right]) none
termination_by 4 * sizeOf rest + 3

end


/-! ### The composed pipeline -/

/-- `__parse` (exposed as `BranchingLogicParser.parse`): it builds the AST and
then calls `self.__field_value_lookup(ast_as_list)` — without the required
`data_df` argument, so after a successful parse the call itself raises
`TypeError: __field_value_lookup() missing 1 required positional argument`.
The method accepts no data source at all. -/
def parse (input_string : String) : Except Err Bool :=
  match create_ast_as_list input_string with
  | .error e => .error e
  | .ok _ast_as_list => .error .typeError


/-- The three stages composed in order with a data source, as the
specification's `parse_and_evaluate(expression_text, data_source)` describes
(and as the class docstring intends for `self.parse`). -/
def run_pipeline (input_string : String) (data_df : DS) : Except Err Bool :=
  match create_ast_as_list input_string with
  | .error e => .error e
  | .ok t =>
    match field_value_lookup t data_df with
    | .error e => .error e
    | .ok bt => boolean_expr_evaluate bt


/-! Whitespace skipping over a decomposed input. -/

/-- The `prev` component after skipping the whitespace run `u`. -/
def lastPrev (p : Option Char) : List Char → Option Char
  | [] => p
  | c :: cs => lastPrev (some c) cs


/-! Surface form and c token of each comparison operator. -/

def opChars : CmpOp → List Char
  | .eq => ['=']
  | .ne => ['<', '>']
  | .lt => ['<']
  | .gt => ['>']
  | .le => ['<', '=']
  | .ge => ['>', '=']


def opCanon : CmpOp → String
  | .eq => "="
  | .ne => "<>"
  | .lt => "<"
  | .gt => ">"
  | .le => "<="
  | .ge => ">="


def opLast : CmpOp → Char
  | .eq => '='
  | .ne => '>'
  | .lt => '<'
  | .gt => '>'
  | .le => '='
  | .ge => '='


/-! ### Comparison atoms in the surface syntax

A structured description of one comparison atom `[field] op 'literal'` of the
surface language, with the well-formedness conditions under which the claims
about whole expressions are stated: the field name is a nonempty run of
alphanumerics/underscore (the specification's identifier class), the literal
contains no single quote and no line break. -/

structure Atom where
  fld : String
  cmp : CmpOp
  lit : String


/-- A nonempty identifier over alphanumerics/underscore. -/
def identOk (s : String) : Bool := !s.toList.isEmpty && s.toList.all isWordChar


/-- A literal writable between single quotes. -/
def litOk (s : String) : Bool := s.toList.all (notQuoteEnd '\'')


/-- The characters `[fld]` `op` `'lit'` followed by `rest`. -/
def renderAtomRest (a : Atom) (rest : List Char) : List Char :=
  '[' :: (a.fld.toList ++ ']' ::
    (opChars a.cmp ++ ('\'' :: (a.lit.toList ++ '\'' :: rest))))


/-- The `as_list` image of one comparison atom: the `Group(field + operator +
value)` triple. -/
def astAtom (a : Atom) : PTok :=
  .nest [.mf ⟨a.fld, none, none⟩, .s (opCanon a.cmp), .s a.lit]


/-- `" AND "` written before a continuation. -/
def andSep (l : List Char) : List Char := ' ' :: 'A' :: 'N' :: 'D' :: ' ' :: l


/-- `" OR "` written before a continuation. -/
def orSep (l : List Char) : List Char := ' ' :: 'O' :: 'R' :: ' ' :: l


/-- The character string `A AND B OR C` for three comparison atoms. -/
def c2Chars (A B C : Atom) : List Char :=
  renderAtomRest A (andSep (renderAtomRest B (orSep (renderAtomRest C []))))


/-! ### General lemmas about the Substitution Stage -/

/-- The boolean value of one comparison leaf under text-ordering semantics. -/
def evalCmpB (o : CmpOp) (v e : String) : Bool :=
  match o with
  | .eq => v == e
  | .ne => v != e
  | .lt => strLt v e
  | .gt => strLt e v
  | .le => strLt v e || v == e
  | .ge => strLt e v || v == e


/-- The collapse of a one-element substituted sub-sequence to its sole
element (`if len(inner_layer) == 1`). -/
def collapse1 (inner : List PTok) : PTok :=
  match inner with
  | [x] => x
  | _ => PTok.nest inner


/-- A data source for the C2 witness. -/
def dsC2W : DS := fun f =>
  if f = "a" then some "1" else if f = "b" then some "0"
  else if f = "c" then some "3" else none


/-! ### Claim C6: the four field-reference surface forms -/

def formEventField (e f : String) : List Char :=
  '[' :: (e.toList ++ ']' :: ('[' :: (f.toList ++ [']'])))


def formFieldCheck (f o : String) : List Char :=
  '[' :: (f.toList ++ ('(' :: (o.toList ++ (')' :: [']']))))


def formEventFieldCheck (e f o : String) : List Char :=
  '[' :: (e.toList ++ ']' ::
    ('[' :: (f.toList ++ ('(' :: (o.toList ++ (')' :: [']']))))))


def formField (f : String) : List Char := '[' :: (f.toList ++ [']'])


/-- A data source resolving `age` to `"20"`. -/
def dsAgeW : DS := fun f => if f = "age" then some "20" else none


/-! ### Claim C7 -/

/-- The data source of the specification's concrete scenario 2. -/
def ds7 : DS := fun f =>
  if f = "status" then some "active" else if f = "age" then some "15" else none


/-! ### Claim C8 -/

/-- Whether an error is the parser's `SyntaxError`-class failure. -/
def isSyntaxErr : Err → Bool
  | .syntaxError _ => true
  | _ => false


/-! ### Claim C3: the evaluator on invariant-obeying sequences

The specification's alternation invariant (§3): a level is a value followed by
alternating connective tokens and values; a value is a boolean or a nested
sequence obeying the same rule. -/

mutual


inductive WFVal : PTok → Prop where
  | bval (x : Bool) : WFVal (.b x)
  | nestval (l : List PTok) : WFSeq l → WFVal (.nest l)


inductive WFTail : List PTok → Prop where
  | nil : WFTail []
  | cons (c : String) (v : PTok) (rest : List PTok) :
      (c = "AND" ∨ c = "OR") → WFVal v → WFTail rest → WFTail (.s c :: v :: rest)


inductive WFSeq : List PTok → Prop where
  | mk (v : PTok) (rest : List PTok) : WFVal v → WFTail rest → WFSeq (v :: rest)

end


/-- The connective denotations of the specification: `AND` is conjunction,
`OR` is disjunction. -/
def connApply (c : String) (x y : Bool) : Bool :=
  if c = "AND" then x && y else x || y


mutual


/-- Reference semantics of a value (specification §4.4): a boolean is itself,
a nested sequence is its level's result. -/
def denoteVal : PTok → Option Bool
  | .b x => some x
  | .nest l => denoteSeq l
  | _ => none
termination_by t => sizeOf t


/-- Reference semantics of a level: the strict left-to-right fold of the
alternating values and connectives. -/
def denoteSeq : List PTok → Option Bool
  | [] => none
  | x :: rest =>
    match denoteVal x with
    | none => none
    | some v => denoteTail rest v
termination_by l => sizeOf l


def denoteTail : List PTok → Bool → Option Bool
  | [], acc => some acc
  | .s c :: x :: rest, acc =>
    match denoteVal x with
    | none => none
    | some w => denoteTail rest (connApply c acc w)
  | _, _ => none
termination_by l _ => sizeOf l

end


/-! ### Claim C5: unresolvable fields abort substitution with a LookupError

The shapes produced by the grammar (§3): a comparison group
`[myField, op, literal]` with one of the six operator symbols, a negation
group `['!', item]`, and connective groups alternating items with
`'AND'`/`'OR'`. -/

mutual


inductive PItem : PTok → Prop where
  | cmp (m : myField) (o lit : String) :
      (o = "=" ∨ o = "<>" ∨ o = "<" ∨ o = ">" ∨ o = "<=" ∨ o = ">=") →
      PItem (.nest [.mf m, .s o, .s lit])
  | notg (x : PTok) : PItem x → PItem (.nest [.s "!", x])
  | grp (l : List PTok) : PSeqTree l → PItem (.nest l)


inductive PSeqTree : List PTok → Prop where
  | one (x : PTok) : PItem x → PSeqTree [x]
  | cons (x : PTok) (c : String) (rest : List PTok) :
      PItem x → (c = "AND" ∨ c = "OR") → PSeqTree rest →
      PSeqTree (x :: .s c :: rest)

end


mutual


/-- Whether a token's tree mentions a field name the data source cannot
resolve. -/
def hasBadTok (ds : DS) : PTok → Bool
  | .mf m => (ds m.field).isNone
  | .nest l => hasBadList ds l
  | _ => false
termination_by t => sizeOf t


def hasBadList (ds : DS) : List PTok → Bool
  | [] => false
  | x :: rest => hasBadTok ds x || hasBadList ds rest
termination_by l => sizeOf l

end


/-! ### General lemmas about the parser combinators -/

lemma bind_def {α β : Type} (p : P α) (f : α → P β) : p >>= f = pbind p f := rfl


lemma ppure_run {α : Type} (a : α) (st : St) : (ppure a) st = .ok (a, st) := rfl


lemma pbind_ok {α β : Type} {p : P α} {f : α → P β} {st : St} {a : α} {st1 : St}
    (h : p st = .ok (a, st1)) : pbind p f st = f a st1 := by
  unfold pbind; rw [h]


lemma pbind_err {α β : Type} {p : P α} {f : α → P β} {st : St} {e : Nat}
    (h : p st = .error e) : pbind p f st = .error e := by
  unfold pbind; rw [h]


lemma palt_ok {α : Type} {p q : P α} {st : St} {r : α × St}
    (h : p st = .ok r) : palt p q st = .ok r := by
  unfold palt; rw [h]


lemma palt_err_ok {α : Type} {p q : P α} {st : St} {r : α × St}
    (hp : ∃ n, p st = .error n) (hq : q st = .ok r) : palt p q st = .ok r := by
  obtain ⟨n, hn⟩ := hp
  unfold palt; rw [hn, hq]


lemma palt_err_err {α : Type} {p q : P α} {st : St}
    (hp : ∃ n, p st = .error n) (hq : ∃ n, q st = .error n) :
    ∃ n, palt p q st = .error n := by
  obtain ⟨n1, h1⟩ := hp
  obtain ⟨n2, h2⟩ := hq
  exact ⟨min n1 n2, by unfold palt; rw [h1, h2]⟩


/-! Character-class facts. -/

lemma wordChar_ne {c : Char} (h : isWordChar c = true) (d : Char)
    (hd : isWordChar d = false) : c ≠ d := by
  intro hc; subst hc; rw [h] at hd; cases hd


lemma wordChar_not_ws {c : Char} (h : isWordChar c = true) : isWs c = false := by
  cases hw : isWs c with
  | false => rfl
  | true =>
    exfalso
    have hc : (c = ' ' ∨ c = '\n') ∨ c = '\t' := by simpa [isWs] using hw
    rcases hc with (rfl | rfl) | rfl <;> exact absurd h (by decide)


lemma skipWsAux_app {p : Option Char} {u l : List Char}
    (hws : ∀ c ∈ u, isWs c = true) (hl : ∀ c, l.head? = some c → isWs c = false) :
    skipWsAux p (u ++ l) = ⟨lastPrev p u, l⟩ := by
  induction u generalizing p with
  | nil =>
    cases l with
    | nil => rfl
    | cons c cs => simp [skipWsAux, hl c rfl, lastPrev]
  | cons w u ih =>
    have hw : isWs w = true := hws w (by simp)
    simp only [List.cons_append, skipWsAux, hw, if_true, lastPrev]
    exact ih (fun c hc => hws c (by simp [hc]))


lemma span_app {q : Char → Bool} {a l : List Char}
    (hxs : ∀ x ∈ a, q x = true) (hl : ∀ c, l.head? = some c → q c = false) :
    (a ++ l).takeWhile q = a ∧ (a ++ l).dropWhile q = l := by
  induction a with
  | nil =>
    cases l with
    | nil => simp
    | cons c cs => simp [List.takeWhile, List.dropWhile, hl c rfl]
  | cons x a ih =>
    have hx : q x = true := hxs x (by simp)
    have ihr := ih (fun c hc => hxs c (by simp [hc]))
    simp [List.takeWhile, List.dropWhile, hx, ihr.1, ihr.2]


/-! Running the terminal parsers on decomposed inputs. -/

lemma pSym_run {p : Option Char} {u l : List Char} (c : Char)
    (hws : ∀ x ∈ u, isWs x = true) (hc : isWs c = false) :
    pSym c ⟨p, u ++ c :: l⟩ = .ok ((), ⟨some c, l⟩) := by
  unfold pSym skipWs
  rw [show (⟨p, u ++ c :: l⟩ : St).prev = p from rfl,
      show (⟨p, u ++ c :: l⟩ : St).rest = u ++ c :: l from rfl,
      skipWsAux_app hws (by intro d hd; simp at hd; subst hd; exact hc)]
  simp


lemma pSym_fail {p : Option Char} {u l : List Char} {c : Char}
    (hws : ∀ x ∈ u, isWs x = true) (hl : ∀ d, l.head? = some d → isWs d = false)
    (hne : ∀ d, l.head? = some d → d ≠ c) :
    ∃ n, pSym c ⟨p, u ++ l⟩ = .error n := by
  unfold pSym skipWs
  rw [show (⟨p, u ++ l⟩ : St).prev = p from rfl,
      show (⟨p, u ++ l⟩ : St).rest = u ++ l from rfl, skipWsAux_app hws hl]
  cases l with
  | nil => exact ⟨0, rfl⟩
  | cons d ds => simp [hne d rfl]


lemma pQuoted_run {p : Option Char} {u t l : List Char} {y z : Char}
    (hws : ∀ x ∈ u, isWs x = true) (hqc : isWs y = false)
    (hcon : ∀ c ∈ t, notQuoteEnd z c = true) :
    pQuoted y z ⟨p, u ++ y :: (t ++ z :: l)⟩ =
      .ok (String.mk t, ⟨some z, l⟩) := by
  unfold pQuoted skipWs
  rw [show (⟨p, u ++ y :: (t ++ z :: l)⟩ : St).prev = p from rfl,
      show (⟨p, u ++ y :: (t ++ z :: l)⟩ : St).rest
        = u ++ y :: (t ++ z :: l) from rfl,
      skipWsAux_app hws (by intro d hd; simp at hd; subst hd; exact hqc)]
  have hspan := span_app (q := notQuoteEnd z) (a := t) (l := z :: l)
    hcon (by intro c hc; simp at hc; simp [hc, notQuoteEnd])
  simp [hspan.1, hspan.2]


lemma pQuoted_fail {p : Option Char} {u l : List Char} {y z : Char}
    (hws : ∀ x ∈ u, isWs x = true) (hl : ∀ d, l.head? = some d → isWs d = false)
    (hne : ∀ d, l.head? = some d → d ≠ y) :
    ∃ n, pQuoted y z ⟨p, u ++ l⟩ = .error n := by
  unfold pQuoted skipWs
  rw [show (⟨p, u ++ l⟩ : St).prev = p from rfl,
      show (⟨p, u ++ l⟩ : St).rest = u ++ l from rfl, skipWsAux_app hws hl]
  cases l with
  | nil => exact ⟨0, rfl⟩
  | cons d ds => simp [hne d rfl]


lemma pWordAlnum_run {p : Option Char} {u w l : List Char}
    (hws : ∀ x ∈ u, isWs x = true) (hw : w ≠ [])
    (hall : ∀ c ∈ w, isWordChar c = true)
    (hl : ∀ c, l.head? = some c → isWordChar c = false) :
    pWordAlnum ⟨p, u ++ (w ++ l)⟩ = .ok (String.mk w, ⟨w.getLast?, l⟩) := by
  unfold pWordAlnum skipWs
  have hhead : ∀ c, (w ++ l).head? = some c → isWs c = false := by
    intro c hc
    cases w with
    | nil => exact absurd rfl hw
    | cons x a =>
      simp at hc
      rw [← hc]
      exact wordChar_not_ws (hall x (by simp))
  rw [show (⟨p, u ++ (w ++ l)⟩ : St).prev = p from rfl,
      show (⟨p, u ++ (w ++ l)⟩ : St).rest = u ++ (w ++ l) from rfl,
      skipWsAux_app hws hhead]
  have hspan := span_app (q := isWordChar) (a := w) (l := l) hall hl
  cases w with
  | nil => exact absurd rfl hw
  | cons x a =>
    rw [List.cons_append] at hspan
    simp [hspan.1, hspan.2]


lemma pOneOfOps_run {p : Option Char} {u l : List Char} (o : CmpOp)
    (hws : ∀ x ∈ u, isWs x = true)
    (hguard : ∀ d, l.head? = some d → (d ≠ '>' ∧ d ≠ '=')) :
    pOneOfOps ⟨p, u ++ (opChars o ++ l)⟩ = .ok (opCanon o, ⟨some (opLast o), l⟩) := by
  have hhead : ∀ c, (opChars o ++ l).head? = some c → isWs c = false := by
    intro c hc
    cases o <;> simp [opChars] at hc <;> subst hc <;> decide
  have hne1 : l.head? ≠ some '>' := by
    intro hc; exact absurd rfl (hguard _ hc).1
  have hne2 : l.head? ≠ some '=' := by
    intro hc; exact absurd rfl (hguard _ hc).2
  unfold pOneOfOps skipWs
  rw [show (⟨p, u ++ (opChars o ++ l)⟩ : St).prev = p from rfl,
      show (⟨p, u ++ (opChars o ++ l)⟩ : St).rest = u ++ (opChars o ++ l) from rfl,
      skipWsAux_app hws hhead]
  cases o <;> simp [opChars, opCanon, opLast, hne1, hne2]


lemma pOneOfOps_fail {p : Option Char} {u l : List Char}
    (hws : ∀ x ∈ u, isWs x = true) (hl : ∀ d, l.head? = some d → isWs d = false)
    (hguard : ∀ d, l.head? = some d → (d ≠ '<' ∧ d ≠ '>' ∧ d ≠ '=')) :
    ∃ n, pOneOfOps ⟨p, u ++ l⟩ = .error n := by
  unfold pOneOfOps skipWs
  rw [show (⟨p, u ++ l⟩ : St).prev = p from rfl,
      show (⟨p, u ++ l⟩ : St).rest = u ++ l from rfl, skipWsAux_app hws hl]
  cases l with
  | nil => exact ⟨0, rfl⟩
  | cons d ds =>
    obtain ⟨h1, h2, h3⟩ := hguard d rfl
    exact ⟨ds.length + 1, by simp [h1, h2, h3]⟩


lemma pCaselessKw_run {p : Option Char} {u k l : List Char} {c : String}
    (hws : ∀ x ∈ u, isWs x = true)
    (hprev : prevIsIdent (lastPrev p u) = false)
    (hkw : k ≠ []) (hup : k.map Char.toUpper = k)
    (hkwhead : ∀ c, k.head? = some c → isWs c = false)
    (hbound : ∀ n, l.head? = some n → isIdentChar n = false) :
    pCaselessKw k c ⟨p, u ++ (k ++ l)⟩ =
      .ok (c, ⟨k.getLast?, l⟩) := by
  have hhead : ∀ c, (k ++ l).head? = some c → isWs c = false := by
    intro c hc
    cases k with
    | nil => exact absurd rfl hkw
    | cons x a => simp at hc; subst hc; exact hkwhead x rfl
  unfold pCaselessKw skipWs
  rw [show (⟨p, u ++ (k ++ l)⟩ : St).prev = p from rfl,
      show (⟨p, u ++ (k ++ l)⟩ : St).rest = u ++ (k ++ l) from rfl,
      skipWsAux_app hws hhead]
  dsimp only
  rw [if_neg (by simp [hprev]), List.take_left, List.drop_left, if_pos hup]
  cases hld : l.head? with
  | none => rfl
  | some n => simp [hbound n hld]


lemma pCaselessKw_fail {p : Option Char} {u k l : List Char} {c : String}
    (hws : ∀ x ∈ u, isWs x = true) (hl : ∀ d, l.head? = some d → isWs d = false)
    (hmismatch : (l.take k.length).map Char.toUpper ≠ k) :
    ∃ n, pCaselessKw k c ⟨p, u ++ l⟩ = .error n := by
  unfold pCaselessKw skipWs
  rw [show (⟨p, u ++ l⟩ : St).prev = p from rfl,
      show (⟨p, u ++ l⟩ : St).rest = u ++ l from rfl, skipWsAux_app hws hl]
  dsimp only
  by_cases hpi : prevIsIdent (lastPrev p u) = true
  · exact ⟨l.length, by rw [if_pos hpi]⟩
  · exact ⟨l.length, by rw [if_neg hpi, if_neg hmismatch]⟩


lemma pBang_run {p : Option Char} {u l : List Char}
    (hws : ∀ x ∈ u, isWs x = true)
    (hprev : prevIsIdent (lastPrev p u) = false)
    (hbound : ∀ n, l.head? = some n → isIdentChar n = false) :
    pBang ⟨p, u ++ '!' :: l⟩ = .ok ("!", ⟨some '!', l⟩) := by
  unfold pBang skipWs
  rw [show (⟨p, u ++ '!' :: l⟩ : St).prev = p from rfl,
      show (⟨p, u ++ '!' :: l⟩ : St).rest = u ++ '!' :: l from rfl,
      skipWsAux_app hws (by intro d hd; simp at hd; subst hd; decide)]
  dsimp only
  rw [if_neg (by simp [hprev]), if_pos rfl]
  cases hld : l.head? with
  | none => rfl
  | some n => simp [hbound n hld]


lemma pBang_fail {p : Option Char} {u l : List Char}
    (hws : ∀ x ∈ u, isWs x = true) (hl : ∀ d, l.head? = some d → isWs d = false)
    (hne : ∀ d, l.head? = some d → d ≠ '!') :
    ∃ n, pBang ⟨p, u ++ l⟩ = .error n := by
  unfold pBang skipWs
  rw [show (⟨p, u ++ l⟩ : St).prev = p from rfl,
      show (⟨p, u ++ l⟩ : St).rest = u ++ l from rfl, skipWsAux_app hws hl]
  dsimp only
  by_cases hpi : prevIsIdent (lastPrev p u) = true
  · exact ⟨l.length, by rw [if_pos hpi]⟩
  · refine ⟨?_, ?_⟩
    case _ => exact l.length
    rw [if_neg hpi]
    cases l with
    | nil => rfl
    | cons d ds =>
      dsimp only
      rw [if_neg (hne d rfl)]


lemma mk_toList (s : String) : String.mk s.toList = s := rfl


lemma identOk_ne {s : String} (h : identOk s = true) : s.toList ≠ [] := by
  intro hz
  simp [identOk] at h
  exact h.1 hz


lemma identOk_all {s : String} (h : identOk s = true) :
    ∀ c ∈ s.toList, isWordChar c = true := by
  have := (Bool.and_eq_true _ _).mp h
  exact fun c hc => (List.all_eq_true.mp this.2) c hc


lemma litOk_all {s : String} (h : litOk s = true) :
    ∀ c ∈ s.toList, notQuoteEnd '\'' c = true := by
  exact fun c hc => (List.all_eq_true.mp h) c hc


lemma opChars_head_cases {o : CmpOp} {l : List Char} {d : Char}
    (h : (opChars o ++ l).head? = some d) : d = '<' ∨ d = '>' ∨ d = '=' := by
  cases o <;> simp [opChars] at h <;> subst h <;> decide


lemma opHead_facts {o : CmpOp} {l : List Char} :
    ∀ d, (opChars o ++ l).head? = some d →
      isWs d = false ∧ d ≠ '[' ∧ d ≠ '(' ∧ d ≠ '"' ∧ d ≠ '\'' := by
  intro d h
  rcases opChars_head_cases h with rfl | rfl | rfl <;> exact by decide


/-- Parsing one comparison atom: the `expression` production consumes exactly
`[fld] op 'lit'`, producing the grouped triple with a bare-variable
`myField`. -/
lemma pExpression_atom {p : Option Char} {u rest : List Char} (a : Atom)
    (hws : ∀ x ∈ u, isWs x = true)
    (hf : identOk a.fld = true) (hlit : litOk a.lit = true) :
    pExpression ⟨p, u ++ renderAtomRest a rest⟩ =
      .ok (astAtom a, ⟨some '\'', rest⟩) := by
  set tail1 : List Char :=
    opChars a.cmp ++ ('\'' :: (a.lit.toList ++ '\'' :: rest)) with htail1
  have hfall := identOk_all hf
  have hfne := identOk_ne hf
  -- the event/variable QuotedString consumes `[fld]`
  have hq1 : pQuoted '[' ']' ⟨p, u ++ renderAtomRest a rest⟩ =
      .ok (a.fld, ⟨some ']', tail1⟩) := by
    have := pQuoted_run (p := p) (u := u) (t := a.fld.toList)
      (l := tail1) (y := '[') (z := ']') hws (by decide)
      (by
        intro c hc
        have hcw := hfall c hc
        simp [notQuoteEnd, wordChar_ne hcw ']' (by decide),
          wordChar_ne hcw '\n' (by decide), wordChar_ne hcw '\r' (by decide)])
    simpa [renderAtomRest, mk_toList, htail1] using this
  -- after `[fld]` come the operator characters
  have hta : ∀ d, tail1.head? = some d →
      isWs d = false ∧ d ≠ '[' ∧ d ≠ '(' ∧ d ≠ '"' ∧ d ≠ '\'' := by
    rw [htail1]; exact fun d hd => opHead_facts d hd
  -- `varcheck_in_event` fails: no second `[` after the quoted event
  have h1 : ∃ n, pVarcheckInEvent ⟨p, u ++ renderAtomRest a rest⟩ = .error n := by
    obtain ⟨n, hn⟩ := pSym_fail (p := some ']') (u := []) (l := tail1) (c := '[')
      (by simp) (fun d hd => (hta d hd).1) (fun d hd => (hta d hd).2.1)
    refine ⟨n, ?_⟩
    unfold pVarcheckInEvent
    rw [bind_def, pbind_ok hq1, bind_def]
    rw [pbind_err (by simpa using hn)]
  -- `variable_in_event` fails: no second quoted `[...]`
  have h2 : ∃ n, pVariableInEvent ⟨p, u ++ renderAtomRest a rest⟩ = .error n := by
    obtain ⟨n, hn⟩ := pQuoted_fail (p := some ']') (u := []) (l := tail1)
      (y := '[') (z := ']')
      (by simp) (fun d hd => (hta d hd).1) (fun d hd => (hta d hd).2.1)
    refine ⟨n, ?_⟩
    unfold pVariableInEvent
    rw [bind_def, pbind_ok hq1, bind_def]
    rw [pbind_err (by simpa using hn)]
  -- `variable_in_check` fails: no `(` after the field name
  have h3 : ∃ n, pVariableInCheck ⟨p, u ++ renderAtomRest a rest⟩ = .error n := by
    have hsym : pSym '[' ⟨p, u ++ renderAtomRest a rest⟩ =
        .ok ((), ⟨some '[', a.fld.toList ++ ']' :: tail1⟩) := by
      have := pSym_run (p := p) (u := u)
        (l := a.fld.toList ++ ']' :: tail1) '[' hws (by decide)
      simpa [renderAtomRest, htail1] using this
    have hword : pWordAlnum ⟨some '[', a.fld.toList ++ ']' :: tail1⟩ =
        .ok (a.fld, ⟨a.fld.toList.getLast?, ']' :: tail1⟩) := by
      have := pWordAlnum_run (p := some '[') (u := []) (w := a.fld.toList)
        (l := ']' :: tail1) (by simp) hfne hfall
        (by intro c hc; simp at hc; subst hc; decide)
      simpa [mk_toList] using this
    obtain ⟨n, hn⟩ := pQuoted_fail (p := a.fld.toList.getLast?) (u := [])
      (l := ']' :: tail1) (y := '(') (z := ')')
      (by simp) (by intro d hd; simp at hd; subst hd; decide)
      (by intro d hd; simp at hd; subst hd; decide)
    refine ⟨n, ?_⟩
    unfold pVariableInCheck
    rw [bind_def, pbind_ok hsym, bind_def, pbind_ok hword, bind_def]
    rw [pbind_err (by simpa using hn)]
  -- the bare `variable` succeeds
  have h4 : pVariable ⟨p, u ++ renderAtomRest a rest⟩ =
      .ok (.mf ⟨a.fld, none, none⟩, ⟨some ']', tail1⟩) := by
    unfold pVariable
    rw [bind_def, pbind_ok hq1]
    rfl
  have hfield : pField ⟨p, u ++ renderAtomRest a rest⟩ =
      .ok (.mf ⟨a.fld, none, none⟩, ⟨some ']', tail1⟩) := by
    unfold pField
    exact palt_err_ok h1 (palt_err_ok h2 (palt_err_ok h3 (palt_ok h4)))
  -- the operator
  have hop : pOneOfOps ⟨some ']', tail1⟩ =
      .ok (opCanon a.cmp, ⟨some (opLast a.cmp), '\'' :: (a.lit.toList ++ '\'' :: rest)⟩) := by
    have := pOneOfOps_run (p := some ']') (u := [])
      (l := '\'' :: (a.lit.toList ++ '\'' :: rest)) a.cmp (by simp)
      (by intro d hd; simp at hd; subst hd; decide)
    simpa [htail1] using this
  -- the literal value: the double-quote alternative fails, the single-quote one runs
  have hval : pValueStr ⟨some (opLast a.cmp), '\'' :: (a.lit.toList ++ '\'' :: rest)⟩ =
      .ok (a.lit, ⟨some '\'', rest⟩) := by
    unfold pValueStr
    refine palt_err_ok ?_ ?_
    · obtain ⟨n, hn⟩ := pQuoted_fail (p := some (opLast a.cmp)) (u := [])
        (l := '\'' :: (a.lit.toList ++ '\'' :: rest)) (y := '"') (z := '"')
        (by simp) (by intro d hd; simp at hd; subst hd; decide)
        (by intro d hd; simp at hd; subst hd; decide)
      exact ⟨n, by simpa using hn⟩
    · have := pQuoted_run (p := some (opLast a.cmp)) (u := [])
        (t := a.lit.toList) (l := rest) (y := '\'') (z := '\'')
        (by simp) (by decide) (litOk_all hlit)
      simpa [mk_toList] using this
  unfold pExpression
  rw [bind_def, pbind_ok hfield, bind_def, pbind_ok hop, bind_def, pbind_ok hval]
  rfl


/-! ### Running the `infix_notation` levels -/

lemma pure_def {α : Type} (a : α) : (pure a : P α) = ppure a := rfl


lemma pBinTail_stop {opP : P String} {elemP : P PTok} {fuel : Nat}
    {acc : List PTok} {st : St} (hop : ∃ n, opP st = .error n) :
    pBinTail opP elemP fuel acc st = .ok (acc, st) := by
  obtain ⟨n, hn⟩ := hop
  cases fuel with
  | zero => rfl
  | succ k =>
    unfold pBinTail
    rw [bind_def, pbind_err hn]


lemma pBinTail_one {opP : P String} {elemP : P PTok} {fuel : Nat}
    {acc : List PTok} {st st2 st3 : St} {o : String} {e : PTok}
    (hop : opP st = .ok (o, st2)) (helem : elemP st2 = .ok (e, st3))
    (hstop : ∃ n, opP st3 = .error n) :
    pBinTail opP elemP (fuel + 1) acc st = .ok (acc ++ [.s o, e], st3) := by
  unfold pBinTail
  rw [bind_def, pbind_ok hop, bind_def, pbind_ok helem, pure_def, ppure_run]
  exact pBinTail_stop hstop


lemma pBinLevel_none {opP : P String} {elemP : P PTok} {fuel : Nat}
    {st st1 : St} {a : PTok}
    (helem : elemP st = .ok (a, st1)) (hop : ∃ n, opP st1 = .error n) :
    pBinLevel opP elemP fuel st = .ok (a, st1) := by
  unfold pBinLevel
  rw [helem]
  dsimp only
  rw [pBinTail_stop hop]


lemma pBinLevel_pair {opP : P String} {elemP : P PTok} {fuel : Nat}
    {st st1 st2 st3 : St} {a1 a2 : PTok} {o : String}
    (helem1 : elemP st = .ok (a1, st1)) (hop : opP st1 = .ok (o, st2))
    (helem2 : elemP st2 = .ok (a2, st3)) (hstop : ∃ n, opP st3 = .error n) :
    pBinLevel opP elemP (fuel + 1) st = .ok (.nest [a1, .s o, a2], st3) := by
  unfold pBinLevel
  rw [helem1]
  dsimp only
  rw [pBinTail_one hop helem2 hstop]
  simp


/-! Unfolding equations for the precedence tower. -/

lemma pLevel_succ_0 (g : Nat) : pLevel (g + 1) 0 =
    palt pExpression (do pSym '('; let r ← pLevel g 4; pSym ')'; pure r) := rfl


lemma pLevel_succ_1 (g : Nat) : pLevel (g + 1) 1 =
    palt (do let bg ← pBang; let x ← pLevel g 1; pure (.nest [.s bg, x]))
      (pLevel g 0) := rfl


lemma pLevel_succ_2 (g : Nat) : pLevel (g + 1) 2 =
    pBinLevel pOneOfOps (pLevel g 1) g := rfl


lemma pLevel_succ_3 (g : Nat) : pLevel (g + 1) 3 =
    pBinLevel (pCaselessKw ['A', 'N', 'D'] "AND") (pLevel g 2) g := rfl


lemma pLevel_succ_4 (g : Nat) : pLevel (g + 1) 4 =
    pBinLevel (pCaselessKw ['O', 'R'] "OR") (pLevel g 3) g := rfl


/-- The base operand level on an atom: the parenthesised branch is not tried
because `expression` already succeeds. -/
lemma pLevel0_atom {p : Option Char} {u r : List Char} (g : Nat) (a : Atom)
    (hws : ∀ x ∈ u, isWs x = true)
    (hf : identOk a.fld = true) (hlit : litOk a.lit = true) :
    pLevel (g + 1) 0 ⟨p, u ++ renderAtomRest a r⟩ =
      .ok (astAtom a, ⟨some '\'', r⟩) := by
  rw [pLevel_succ_0]
  exact palt_ok (pExpression_atom a hws hf hlit)


/-- The `!` level on an atom: `Keyword("!")` fails on the opening bracket and
the level falls through to the operand. -/
lemma pLevel1_atom {p : Option Char} {u r : List Char} (g : Nat) (a : Atom)
    (hws : ∀ x ∈ u, isWs x = true)
    (hf : identOk a.fld = true) (hlit : litOk a.lit = true) :
    pLevel (g + 2) 1 ⟨p, u ++ renderAtomRest a r⟩ =
      .ok (astAtom a, ⟨some '\'', r⟩) := by
  rw [pLevel_succ_1]
  refine palt_err_ok ?_ (pLevel0_atom g a hws hf hlit)
  obtain ⟨n, hn⟩ := pBang_fail (p := p) (u := u) (l := renderAtomRest a r)
    hws (by intro d hd; simp [renderAtomRest] at hd; subst hd; decide)
    (by intro d hd; simp [renderAtomRest] at hd; subst hd; decide)
  exact ⟨n, by rw [bind_def, pbind_err hn]⟩


/-- The comparison-operator level on an atom followed by input that carries no
further comparison operator: passed through ungrouped. -/
lemma pLevel2_atom {p : Option Char} {u r : List Char} (g : Nat) (a : Atom)
    (hws : ∀ x ∈ u, isWs x = true)
    (hf : identOk a.fld = true) (hlit : litOk a.lit = true)
    (hop : ∃ n, pOneOfOps ⟨some '\'', r⟩ = .error n) :
    pLevel (g + 3) 2 ⟨p, u ++ renderAtomRest a r⟩ =
      .ok (astAtom a, ⟨some '\'', r⟩) := by
  rw [show pLevel (g + 3) 2 = pBinLevel pOneOfOps (pLevel (g + 2) 1) (g + 2) from rfl]
  exact pBinLevel_none (pLevel1_atom g a hws hf hlit) hop


/-- The `AND` level on a single atom not followed by `AND`. -/
lemma pLevel3_atom {p : Option Char} {u r : List Char} (g : Nat) (a : Atom)
    (hws : ∀ x ∈ u, isWs x = true)
    (hf : identOk a.fld = true) (hlit : litOk a.lit = true)
    (hop : ∃ n, pOneOfOps ⟨some '\'', r⟩ = .error n)
    (hand : ∃ n, pCaselessKw ['A', 'N', 'D'] "AND" ⟨some '\'', r⟩ = .error n) :
    pLevel (g + 4) 3 ⟨p, u ++ renderAtomRest a r⟩ =
      .ok (astAtom a, ⟨some '\'', r⟩) := by
  rw [show pLevel (g + 4) 3 =
    pBinLevel (pCaselessKw ['A', 'N', 'D'] "AND") (pLevel (g + 3) 2) (g + 3) from rfl]
  exact pBinLevel_none (pLevel2_atom g a hws hf hlit hop) hand


lemma pOneOfOps_fail_andSep {l : List Char} :
    ∃ n, pOneOfOps ⟨some '\'', andSep l⟩ = .error n := by
  have := pOneOfOps_fail (p := some '\'') (u := [' '])
    (l := 'A' :: 'N' :: 'D' :: ' ' :: l) (by decide)
    (by intro d hd; simp at hd; subst hd; decide)
    (by intro d hd; simp at hd; subst hd; decide)
  simpa [andSep] using this


lemma pOneOfOps_fail_orSep {l : List Char} :
    ∃ n, pOneOfOps ⟨some '\'', orSep l⟩ = .error n := by
  have := pOneOfOps_fail (p := some '\'') (u := [' '])
    (l := 'O' :: 'R' :: ' ' :: l) (by decide)
    (by intro d hd; simp at hd; subst hd; decide)
    (by intro d hd; simp at hd; subst hd; decide)
  simpa [orSep] using this


lemma pAnd_fail_orSep {l : List Char} :
    ∃ n, pCaselessKw ['A', 'N', 'D'] "AND" ⟨some '\'', orSep l⟩ = .error n := by
  have := pCaselessKw_fail (p := some '\'') (u := [' '])
    (l := 'O' :: 'R' :: ' ' :: l) (c := "AND") (k := ['A', 'N', 'D'])
    (by decide) (by intro d hd; simp at hd; subst hd; decide)
    (by simp [List.take])
  simpa [orSep] using this


lemma pOneOfOps_fail_nil : ∃ n, pOneOfOps ⟨some '\'', ([] : List Char)⟩ = .error n := by
  have := pOneOfOps_fail (p := some '\'') (u := []) (l := ([] : List Char))
    (by simp) (by simp) (by simp)
  simpa using this


lemma pKw_fail_nil {k : List Char} {c : String} (hkw : k ≠ []) :
    ∃ n, pCaselessKw k c ⟨some '\'', ([] : List Char)⟩ = .error n := by
  have := pCaselessKw_fail (p := some '\'') (u := []) (l := ([] : List Char))
    (c := c) (k := k) (by simp) (by simp)
    (by intro h; rw [List.take_nil, List.map_nil] at h; exact hkw h.symm)
  simpa using this


/-- The `AND` keyword succeeds across `" AND "`. -/
lemma pAnd_run_andSep {l : List Char} :
    pCaselessKw ['A', 'N', 'D'] "AND" ⟨some '\'', andSep l⟩ =
      .ok ("AND", ⟨some 'D', ' ' :: l⟩) := by
  have := pCaselessKw_run (p := some '\'') (u := [' '])
    (k := ['A', 'N', 'D']) (l := ' ' :: l) (c := "AND")
    (by decide) (by decide) (by decide) (by decide)
    (by intro c hc; simp at hc; subst hc; decide)
    (by intro n hn; simp at hn; subst hn; decide)
  rw [show (['A', 'N', 'D'] : List Char).getLast? = some 'D' from rfl] at this
  simpa [andSep] using this


/-- The `OR` keyword succeeds across `" OR "`. -/
lemma pOr_run_orSep {l : List Char} :
    pCaselessKw ['O', 'R'] "OR" ⟨some '\'', orSep l⟩ =
      .ok ("OR", ⟨some 'R', ' ' :: l⟩) := by
  have := pCaselessKw_run (p := some '\'') (u := [' '])
    (k := ['O', 'R']) (l := ' ' :: l) (c := "OR")
    (by decide) (by decide) (by decide) (by decide)
    (by intro c hc; simp at hc; subst hc; decide)
    (by intro n hn; simp at hn; subst hn; decide)
  rw [show (['O', 'R'] : List Char).getLast? = some 'R' from rfl] at this
  simpa [orSep] using this


/-- The `AND` level on `A AND B` (not followed by another `AND`): one flat
group `[A, 'AND', B]`, exactly pyparsing's left-associative grouping. -/
lemma pLevel3_pair {p : Option Char} {u rest2 : List Char} (g : Nat) (a1 a2 : Atom)
    (hws : ∀ x ∈ u, isWs x = true)
    (hf1 : identOk a1.fld = true) (hl1 : litOk a1.lit = true)
    (hf2 : identOk a2.fld = true) (hl2 : litOk a2.lit = true)
    (hop2 : ∃ n, pOneOfOps ⟨some '\'', rest2⟩ = .error n)
    (hand2 : ∃ n, pCaselessKw ['A', 'N', 'D'] "AND" ⟨some '\'', rest2⟩ = .error n) :
    pLevel (g + 4) 3
      ⟨p, u ++ renderAtomRest a1 (andSep (renderAtomRest a2 rest2))⟩ =
      .ok (.nest [astAtom a1, .s "AND", astAtom a2], ⟨some '\'', rest2⟩) := by
  rw [show pLevel (g + 4) 3 =
    pBinLevel (pCaselessKw ['A', 'N', 'D'] "AND") (pLevel (g + 3) 2) ((g + 2) + 1)
    from rfl]
  have helem2 := pLevel2_atom (p := some 'D') (u := [' ']) (r := rest2)
    g a2 (by decide) hf2 hl2 hop2
  rw [List.singleton_append] at helem2
  exact pBinLevel_pair
    (pLevel2_atom g a1 hws hf1 hl1 pOneOfOps_fail_andSep)
    pAnd_run_andSep helem2 hand2


/-- The whole grammar on `A AND B OR C`: the tree groups as
`[[A, 'AND', B], 'OR', C]`. -/
lemma pLevel4_c2 {p : Option Char} {u : List Char} (g : Nat) (A B C : Atom)
    (hws : ∀ x ∈ u, isWs x = true)
    (hfA : identOk A.fld = true) (hlA : litOk A.lit = true)
    (hfB : identOk B.fld = true) (hlB : litOk B.lit = true)
    (hfC : identOk C.fld = true) (hlC : litOk C.lit = true) :
    pLevel (g + 5) 4
      ⟨p, u ++ renderAtomRest A (andSep (renderAtomRest B
        (orSep (renderAtomRest C []))))⟩ =
      .ok (.nest [.nest [astAtom A, .s "AND", astAtom B], .s "OR", astAtom C],
        ⟨some '\'', []⟩) := by
  rw [show pLevel (g + 5) 4 =
    pBinLevel (pCaselessKw ['O', 'R'] "OR") (pLevel (g + 4) 3) ((g + 3) + 1)
    from rfl]
  have helemC := pLevel3_atom (p := some 'R') (u := [' ']) (r := [])
    g C (by decide) hfC hlC pOneOfOps_fail_nil (pKw_fail_nil (by decide))
  rw [List.singleton_append] at helemC
  exact pBinLevel_pair
    (pLevel3_pair g A B hws hfA hlA hfB hlB pOneOfOps_fail_orSep pAnd_fail_orSep)
    pOr_run_orSep helemC (pKw_fail_nil (by decide))


lemma toList_mk (l : List Char) : (String.mk l).toList = l := rfl


/-- `create_ast` on `A AND B OR C`. -/
lemma create_ast_c2 (A B C : Atom)
    (hfA : identOk A.fld = true) (hlA : litOk A.lit = true)
    (hfB : identOk B.fld = true) (hlB : litOk B.lit = true)
    (hfC : identOk C.fld = true) (hlC : litOk C.lit = true) :
    create_ast_as_list (String.mk (c2Chars A B C)) =
      .ok [.nest [.nest [astAtom A, .s "AND", astAtom B], .s "OR", astAtom C]] := by
  unfold create_ast_as_list
  rw [toList_mk]
  dsimp only
  have hlvl := pLevel4_c2 (p := none) (u := []) ((c2Chars A B C).length + 59)
    A B C (by simp) hfA hlA hfB hlB hfC hlC
  rw [List.nil_append] at hlvl
  rw [show (c2Chars A B C).length + 64 = ((c2Chars A B C).length + 59) + 5 from by omega]
  rw [show renderAtomRest A (andSep (renderAtomRest B (orSep (renderAtomRest C []))))
    = c2Chars A B C from rfl] at hlvl
  rw [hlvl]


/-! Pass-through lemmas: a level with no operation ahead hands its operand's
result through unchanged. -/

lemma pLevel2_of (g : Nat) {st st' : St} {r : PTok}
    (helem : pLevel (g + 2) 1 st = .ok (r, st'))
    (hop : ∃ n, pOneOfOps st' = .error n) :
    pLevel (g + 3) 2 st = .ok (r, st') := by
  rw [show pLevel (g + 3) 2 = pBinLevel pOneOfOps (pLevel (g + 2) 1) (g + 2) from rfl]
  exact pBinLevel_none helem hop


lemma pLevel3_of (g : Nat) {st st' : St} {r : PTok}
    (helem : pLevel (g + 3) 2 st = .ok (r, st'))
    (hand : ∃ n, pCaselessKw ['A', 'N', 'D'] "AND" st' = .error n) :
    pLevel (g + 4) 3 st = .ok (r, st') := by
  rw [show pLevel (g + 4) 3 =
    pBinLevel (pCaselessKw ['A', 'N', 'D'] "AND") (pLevel (g + 3) 2) (g + 3) from rfl]
  exact pBinLevel_none helem hand


lemma pLevel4_of (g : Nat) {st st' : St} {r : PTok}
    (helem : pLevel (g + 4) 3 st = .ok (r, st'))
    (hor : ∃ n, pCaselessKw ['O', 'R'] "OR" st' = .error n) :
    pLevel (g + 5) 4 st = .ok (r, st') := by
  rw [show pLevel (g + 5) 4 =
    pBinLevel (pCaselessKw ['O', 'R'] "OR") (pLevel (g + 4) 3) (g + 4) from rfl]
  exact pBinLevel_none helem hor


/-- The `!` level on `! atom`: `Group('!' + operand)`. -/
lemma pLevel1_bang (g : Nat) (a : Atom) {p : Option Char} {r : List Char}
    (hprev : prevIsIdent p = false)
    (hf : identOk a.fld = true) (hlit : litOk a.lit = true) :
    pLevel (g + 3) 1 ⟨p, '!' :: renderAtomRest a r⟩ =
      .ok (.nest [.s "!", astAtom a], ⟨some '\'', r⟩) := by
  rw [show pLevel (g + 3) 1 = palt
      (do let bg ← pBang; let x ← pLevel (g + 2) 1; pure (PTok.nest [.s bg, x]))
      (pLevel (g + 2) 0) from rfl]
  refine palt_ok ?_
  have hbang : pBang ⟨p, '!' :: renderAtomRest a r⟩ =
      .ok ("!", ⟨some '!', renderAtomRest a r⟩) := by
    have := pBang_run (p := p) (u := []) (l := renderAtomRest a r)
      (by simp) (by simpa [lastPrev] using hprev)
      (by intro n hn; simp [renderAtomRest] at hn; subst hn; decide)
    simpa using this
  have hatom := pLevel1_atom (p := some '!') (u := []) (r := r) g a
    (by simp) hf hlit
  rw [List.nil_append] at hatom
  rw [bind_def, pbind_ok hbang, bind_def, pbind_ok hatom, pure_def, ppure_run]


/-- `create_ast` on a single comparison atom. -/
lemma create_ast_atom (a : Atom)
    (hf : identOk a.fld = true) (hlit : litOk a.lit = true) :
    create_ast_as_list (String.mk (renderAtomRest a [])) = .ok [astAtom a] := by
  unfold create_ast_as_list
  rw [toList_mk]
  dsimp only
  rw [show (renderAtomRest a []).length + 64 =
    ((renderAtomRest a []).length + 59) + 5 from by omega]
  have hatom := pLevel3_atom (p := none) (u := []) (r := [])
    ((renderAtomRest a []).length + 59) a (by simp) hf hlit
    pOneOfOps_fail_nil (pKw_fail_nil (by decide))
  rw [List.nil_append] at hatom
  rw [pLevel4_of _ hatom (pKw_fail_nil (by decide))]


/-- `create_ast` on `!` followed by a comparison atom. -/
lemma create_ast_bang (a : Atom)
    (hf : identOk a.fld = true) (hlit : litOk a.lit = true) :
    create_ast_as_list (String.mk ('!' :: renderAtomRest a [])) =
      .ok [.nest [.s "!", astAtom a]] := by
  unfold create_ast_as_list
  rw [toList_mk]
  dsimp only
  rw [show ('!' :: renderAtomRest a []).length + 64 =
    (('!' :: renderAtomRest a []).length + 59) + 5 from by omega]
  have h1 := pLevel1_bang (('!' :: renderAtomRest a []).length + 58) a
    (p := none) (r := []) (by decide) hf hlit
  have h1m : pLevel ((('!' :: renderAtomRest a []).length + 59) + 2) 1
      ⟨none, '!' :: renderAtomRest a []⟩ =
      .ok (.nest [.s "!", astAtom a], ⟨some '\'', []⟩) := by
    rw [show (('!' :: renderAtomRest a []).length + 59) + 2 =
      (('!' :: renderAtomRest a []).length + 58) + 3 from by omega]
    exact h1
  rw [pLevel4_of _ (pLevel3_of _ (pLevel2_of _ h1m pOneOfOps_fail_nil)
    (pKw_fail_nil (by decide))) (pKw_fail_nil (by decide))]


lemma fvl_nil (ds : DS) : field_value_lookup [] ds = .ok [] := by
  simp [field_value_lookup]


lemma cmp_op_lookup_canon (o : CmpOp) :
    cmp_op_lookup (.s (opCanon o)) = .ok o := by
  cases o <;> rfl


lemma apply_cmp_s (o : CmpOp) (v e : String) :
    apply_cmp o v (.s e) = .ok (evalCmpB o v e) := by
  cases o <;> rfl


/-- Substituting one comparison triple at the top of a level: the boolean is
pushed and the level returns at once. -/
lemma fvl_cmp (m : myField) (o : CmpOp) (lit : String) (ds : DS) {v : String}
    (hv : ds m.field = some v) :
    field_value_lookup [.mf m, .s (opCanon o), .s lit] ds =
      .ok [.b (evalCmpB o v lit)] := by
  rw [show field_value_lookup [.mf m, .s (opCanon o), .s lit] ds =
    (match cmp_op_lookup (.s (opCanon o)) with
     | .error e => .error e
     | .ok operator =>
       match redcap_lookup m.field ds with
       | .error e => .error e
       | .ok field_value =>
         match apply_cmp operator field_value (.s lit) with
         | .error e => .error e
         | .ok field_result => .ok [PTok.b field_result]) from by
      simp [field_value_lookup]]
  rw [cmp_op_lookup_canon]
  unfold redcap_lookup
  rw [hv]
  dsimp only
  rw [apply_cmp_s]


/-- Substituting a single comparison group `[(myField, op, lit)]`: the inner
singleton result is collapsed to its boolean. -/
lemma fvl_atom_group (m : myField) (o : CmpOp) (lit : String) (ds : DS) {v : String}
    (hv : ds m.field = some v) :
    field_value_lookup [.nest [.mf m, .s (opCanon o), .s lit]] ds =
      .ok [.b (evalCmpB o v lit)] := by
  rw [show field_value_lookup [.nest [.mf m, .s (opCanon o), .s lit]] ds =
    (match field_value_lookup [.mf m, .s (opCanon o), .s lit] ds with
     | .error e => .error e
     | .ok inner_layer =>
       let item := match inner_layer with
         | [x] => x
         | _ => PTok.nest inner_layer
       match field_value_lookup ([] : List PTok) ds with
       | .error e => .error e
       | .ok tail => .ok (item :: tail)) from by
      simp [field_value_lookup]]
  rw [fvl_cmp m o lit ds hv, fvl_nil]


/-- Substituting `['!', group]`: the `!` token is dropped (it is neither a
list, a `myField`, `'AND'` nor `'OR'`), so the result is that of the group
alone. -/
lemma fvl_bang_group (m : myField) (o : CmpOp) (lit : String) (ds : DS) {v : String}
    (hv : ds m.field = some v) :
    field_value_lookup [.nest [.s "!", .nest [.mf m, .s (opCanon o), .s lit]]] ds =
      .ok [.b (evalCmpB o v lit)] := by
  have hinner : field_value_lookup [.s "!", .nest [.mf m, .s (opCanon o), .s lit]] ds =
      .ok [.b (evalCmpB o v lit)] := by
    rw [show field_value_lookup [.s "!", .nest [.mf m, .s (opCanon o), .s lit]] ds =
      field_value_lookup [.nest [.mf m, .s (opCanon o), .s lit]] ds from by
        simp [field_value_lookup]]
    exact fvl_atom_group m o lit ds hv
  rw [show field_value_lookup [.nest [.s "!", .nest [.mf m, .s (opCanon o), .s lit]]] ds =
    (match field_value_lookup [.s "!", .nest [.mf m, .s (opCanon o), .s lit]] ds with
     | .error e => .error e
     | .ok inner_layer =>
       let item := match inner_layer with
         | [x] => x
         | _ => PTok.nest inner_layer
       match field_value_lookup ([] : List PTok) ds with
       | .error e => .error e
       | .ok tail => .ok (item :: tail)) from by
      simp [field_value_lookup]]
  rw [hinner, fvl_nil]


lemma fvl_and_cons {rest : List PTok} {ds : DS} {tail : List PTok}
    (h : field_value_lookup rest ds = .ok tail) :
    field_value_lookup (.s "AND" :: rest) ds = .ok (.s "AND" :: tail) := by
  rw [show field_value_lookup (.s "AND" :: rest) ds =
    (match field_value_lookup rest ds with
     | .error e => .error e
     | .ok tail => .ok (.s "AND" :: tail)) from by simp [field_value_lookup]]
  rw [h]


lemma fvl_or_cons {rest : List PTok} {ds : DS} {tail : List PTok}
    (h : field_value_lookup rest ds = .ok tail) :
    field_value_lookup (.s "OR" :: rest) ds = .ok (.s "OR" :: tail) := by
  rw [show field_value_lookup (.s "OR" :: rest) ds =
    (match field_value_lookup rest ds with
     | .error e => .error e
     | .ok tail => .ok (.s "OR" :: tail)) from by simp [field_value_lookup]]
  rw [h]


lemma fvl_nest_cons {l rest : List PTok} {ds : DS} {inner tail : List PTok}
    (hi : field_value_lookup l ds = .ok inner)
    (ht : field_value_lookup rest ds = .ok tail) :
    field_value_lookup (.nest l :: rest) ds = .ok (collapse1 inner :: tail) := by
  rw [show field_value_lookup (.nest l :: rest) ds =
    (match field_value_lookup l ds with
     | .error e => .error e
     | .ok inner_layer =>
       let item := match inner_layer with
         | [x] => x
         | _ => PTok.nest inner_layer
       match field_value_lookup rest ds with
       | .error e => .error e
       | .ok tail => .ok (item :: tail)) from by simp [field_value_lookup]]
  rw [hi, ht]
  rfl


/-- Substituting the parsed tree of `A AND B OR C`: every comparison group
becomes its boolean, the `AND`/`OR` tokens are kept, the grouping is kept. -/
lemma fvl_c2_tree (mA mB mC : myField) (oA oB oC : CmpOp) (litA litB litC : String)
    (ds : DS) {vA vB vC : String}
    (hA : ds mA.field = some vA) (hB : ds mB.field = some vB)
    (hC : ds mC.field = some vC) :
    field_value_lookup
      [.nest [.nest [.nest [.mf mA, .s (opCanon oA), .s litA], .s "AND",
                     .nest [.mf mB, .s (opCanon oB), .s litB]], .s "OR",
              .nest [.mf mC, .s (opCanon oC), .s litC]]] ds =
      .ok [.nest [.nest [.b (evalCmpB oA vA litA), .s "AND", .b (evalCmpB oB vB litB)],
                  .s "OR", .b (evalCmpB oC vC litC)]] := by
  have hAB : field_value_lookup
      [.nest [.mf mA, .s (opCanon oA), .s litA], .s "AND",
       .nest [.mf mB, .s (opCanon oB), .s litB]] ds =
      .ok [.b (evalCmpB oA vA litA), .s "AND", .b (evalCmpB oB vB litB)] := by
    have := fvl_nest_cons (fvl_cmp mA oA litA ds hA)
      (fvl_and_cons (fvl_atom_group mB oB litB ds hB))
    simpa [collapse1] using this
  have htop : field_value_lookup
      [.nest [.nest [.mf mA, .s (opCanon oA), .s litA], .s "AND",
              .nest [.mf mB, .s (opCanon oB), .s litB]], .s "OR",
       .nest [.mf mC, .s (opCanon oC), .s litC]] ds =
      .ok [.nest [.b (evalCmpB oA vA litA), .s "AND", .b (evalCmpB oB vB litB)],
           .s "OR", .b (evalCmpB oC vC litC)] := by
    have := fvl_nest_cons hAB (fvl_or_cons (fvl_atom_group mC oC litC ds hC))
    simpa [collapse1] using this
  have := fvl_nest_cons htop (fvl_nil ds)
  simpa [collapse1] using this


/-! ### General lemmas about the Boolean Evaluator -/

lemma bee_single (x : Bool) : boolean_expr_evaluate [.b x] = .ok x := by
  simp [boolean_expr_evaluate, beeGo, beeStep]


/-- Evaluating the substituted `A AND B OR C` tree gives exactly
`(A ∧ B) ∨ C`. -/
lemma bee_c2_tree (x y z : Bool) :
    boolean_expr_evaluate
      [.nest [.nest [.b x, .s "AND", .b y], .s "OR", .b z]] =
      .ok ((x && y) || z) := by
  cases x <;> cases y <;> cases z <;>
    simp [boolean_expr_evaluate, beeGo, beeStep, bool_op_lookup, popLast]


/-! ### Composing the pipeline -/

lemma run_pipeline_ok {s : String} {ds : DS} {T B : List PTok}
    (h1 : create_ast_as_list s = .ok T) (h2 : field_value_lookup T ds = .ok B) :
    run_pipeline s ds = boolean_expr_evaluate B := by
  unfold run_pipeline
  rw [h1]
  dsimp only
  rw [h2]


lemma run_pipeline_suberr {s : String} {ds : DS} {T : List PTok} {e : Err}
    (h1 : create_ast_as_list s = .ok T) (h2 : field_value_lookup T ds = .error e) :
    run_pipeline s ds = .error e := by
  unfold run_pipeline
  rw [h1]
  dsimp only
  rw [h2]


/-! ### Claim C2 -/

/-- C2: for every expression of the form `A AND B OR C` whose three members
are comparison atoms (identifier field names, quotable literals), the parser
groups the tree as `(A AND B) OR C` — i.e. the `as_list` AST is
`[[[A], 'AND', [B]], 'OR', [C]]` — and for every data source resolving the
three fields (hence for every truth assignment of the three comparisons) the
pipeline returns the boolean value of `(A AND B) OR C`. -/
theorem c2_precedence_A_AND_B_OR_C (A B C : Atom)
    (hfA : identOk A.fld = true) (hlA : litOk A.lit = true)
    (hfB : identOk B.fld = true) (hlB : litOk B.lit = true)
    (hfC : identOk C.fld = true) (hlC : litOk C.lit = true)
    (ds : DS) (vA vB vC : String)
    (hA : ds A.fld = some vA) (hB : ds B.fld = some vB) (hC : ds C.fld = some vC) :
    create_ast_as_list (String.mk (c2Chars A B C)) =
      .ok [.nest [.nest [astAtom A, .s "AND", astAtom B], .s "OR", astAtom C]]
    ∧ run_pipeline (String.mk (c2Chars A B C)) ds =
      .ok ((evalCmpB A.cmp vA A.lit && evalCmpB B.cmp vB B.lit)
            || evalCmpB C.cmp vC C.lit) := by
  have hast := create_ast_c2 A B C hfA hlA hfB hlB hfC hlC
  have hsub := fvl_c2_tree ⟨A.fld, none, none⟩ ⟨B.fld, none, none⟩
    ⟨C.fld, none, none⟩ A.cmp B.cmp C.cmp A.lit B.lit C.lit
    ds hA hB hC
  refine ⟨hast, ?_⟩
  rw [run_pipeline_ok hast hsub]
  exact bee_c2_tree _ _ _


theorem c2_precedence_A_AND_B_OR_C_witness :
    create_ast_as_list (String.mk (c2Chars ⟨"a", .eq, "1"⟩ ⟨"b", .eq, "2"⟩ ⟨"c", .eq, "3"⟩)) =
      .ok [.nest [.nest [astAtom ⟨"a", .eq, "1"⟩, .s "AND", astAtom ⟨"b", .eq, "2"⟩],
            .s "OR", astAtom ⟨"c", .eq, "3"⟩]]
    ∧ run_pipeline (String.mk (c2Chars ⟨"a", .eq, "1"⟩ ⟨"b", .eq, "2"⟩ ⟨"c", .eq, "3"⟩)) dsC2W =
      .ok ((evalCmpB .eq "1" "1" && evalCmpB .eq "0" "2") || evalCmpB .eq "3" "3") :=
  c2_precedence_A_AND_B_OR_C ⟨"a", .eq, "1"⟩ ⟨"b", .eq, "2"⟩ ⟨"c", .eq, "3"⟩
    (by decide) (by decide) (by decide) (by decide) (by decide) (by decide)
    dsC2W "1" "0" "3" rfl rfl rfl


lemma ident_notQuoteEnd {s : String} (h : identOk s = true) (z : Char)
    (hec : isWordChar z = false) : ∀ c ∈ s.toList, notQuoteEnd z c = true := by
  intro c hc
  have hcw := identOk_all h c hc
  simp [notQuoteEnd, wordChar_ne hcw z hec, wordChar_ne hcw '\n' (by decide),
    wordChar_ne hcw '\r' (by decide)]


/-- `[event][field]` is parsed by `variable_in_event`
(`__create_my_event_field`): field plus event, no checkbox. -/
lemma pField_event_field (e f : String) {p : Option Char}
    (he : identOk e = true) (hf : identOk f = true) :
    pField ⟨p, formEventField e f⟩ =
      .ok (.mf ⟨f, some e, none⟩, ⟨some ']', []⟩) := by
  have hqe : pQuoted '[' ']' ⟨p, formEventField e f⟩ =
      .ok (e, ⟨some ']', '[' :: (f.toList ++ [']'])⟩) := by
    have := pQuoted_run (p := p) (u := []) (t := e.toList)
      (l := '[' :: (f.toList ++ [']'])) (y := '[') (z := ']')
      (by simp) (by decide) (ident_notQuoteEnd he ']' (by decide))
    simpa [formEventField, mk_toList] using this
  have hqf : pQuoted '[' ']' ⟨some ']', '[' :: (f.toList ++ [']'])⟩ =
      .ok (f, ⟨some ']', []⟩) := by
    have := pQuoted_run (p := some ']') (u := []) (t := f.toList)
      (l := []) (y := '[') (z := ']')
      (by simp) (by decide) (ident_notQuoteEnd hf ']' (by decide))
    simpa [mk_toList] using this
  have hsym : pSym '[' ⟨some ']', '[' :: (f.toList ++ [']'])⟩ =
      .ok ((), ⟨some '[', f.toList ++ [']']⟩) := by
    have := pSym_run (p := some ']') (u := []) (l := f.toList ++ [']']) '['
      (by simp) (by decide)
    simpa using this
  have hword : pWordAlnum ⟨some '[', f.toList ++ [']']⟩ =
      .ok (f, ⟨f.toList.getLast?, [']']⟩) := by
    have := pWordAlnum_run (p := some '[') (u := []) (w := f.toList)
      (l := [']']) (by simp) (identOk_ne hf) (identOk_all hf)
      (by intro c hc; simp at hc; subst hc; decide)
    simpa [mk_toList] using this
  have h1 : ∃ n, pVarcheckInEvent ⟨p, formEventField e f⟩ = .error n := by
    obtain ⟨n, hn⟩ := pQuoted_fail (p := f.toList.getLast?) (u := [])
      (l := [']']) (y := '(') (z := ')') (by simp)
      (by intro d hd; simp at hd; subst hd; decide)
      (by intro d hd; simp at hd; subst hd; decide)
    refine ⟨n, ?_⟩
    unfold pVarcheckInEvent
    rw [bind_def, pbind_ok hqe, bind_def, pbind_ok hsym, bind_def,
      pbind_ok hword, bind_def, pbind_err (by simpa using hn)]
  have h2 : pVariableInEvent ⟨p, formEventField e f⟩ =
      .ok (.mf ⟨f, some e, none⟩, ⟨some ']', []⟩) := by
    unfold pVariableInEvent
    rw [bind_def, pbind_ok hqe, bind_def, pbind_ok hqf]
    rfl
  unfold pField
  exact palt_err_ok h1 (palt_ok h2)


/-- `[field]` alone is parsed by `variable` (`__create_my_field`): only the
field attribute is set. -/
lemma pField_bare (f : String) {p : Option Char} (hf : identOk f = true) :
    pField ⟨p, formField f⟩ = .ok (.mf ⟨f, none, none⟩, ⟨some ']', []⟩) := by
  have hqf : pQuoted '[' ']' ⟨p, formField f⟩ = .ok (f, ⟨some ']', []⟩) := by
    have := pQuoted_run (p := p) (u := []) (t := f.toList)
      (l := []) (y := '[') (z := ']')
      (by simp) (by decide) (ident_notQuoteEnd hf ']' (by decide))
    simpa [formField, mk_toList] using this
  have hsym : pSym '[' ⟨p, formField f⟩ =
      .ok ((), ⟨some '[', f.toList ++ [']']⟩) := by
    have := pSym_run (p := p) (u := []) (l := f.toList ++ [']']) '['
      (by simp) (by decide)
    simpa [formField] using this
  have hword : pWordAlnum ⟨some '[', f.toList ++ [']']⟩ =
      .ok (f, ⟨f.toList.getLast?, [']']⟩) := by
    have := pWordAlnum_run (p := some '[') (u := []) (w := f.toList)
      (l := [']']) (by simp) (identOk_ne hf) (identOk_all hf)
      (by intro c hc; simp at hc; subst hc; decide)
    simpa [mk_toList] using this
  have hnil : ∀ {y z : Char}, ∃ n, pQuoted y z ⟨some ']', ([] : List Char)⟩ = .error n := by
    intro y z
    have := pQuoted_fail (p := some ']') (u := []) (l := [])
      (y := y) (z := z) (by simp) (by simp) (by simp)
    simpa using this
  have h1 : ∃ n, pVarcheckInEvent ⟨p, formField f⟩ = .error n := by
    obtain ⟨n, hn⟩ := pSym_fail (p := some ']') (u := []) (l := ([] : List Char))
      (c := '[') (by simp) (by simp) (by simp)
    refine ⟨n, ?_⟩
    unfold pVarcheckInEvent
    rw [bind_def, pbind_ok hqf, bind_def, pbind_err (by simpa using hn)]
  have h2 : ∃ n, pVariableInEvent ⟨p, formField f⟩ = .error n := by
    obtain ⟨n, hn⟩ := hnil (y := '[') (z := ']')
    refine ⟨n, ?_⟩
    unfold pVariableInEvent
    rw [bind_def, pbind_ok hqf, bind_def, pbind_err hn]
  have h3 : ∃ n, pVariableInCheck ⟨p, formField f⟩ = .error n := by
    obtain ⟨n, hn⟩ := pQuoted_fail (p := f.toList.getLast?) (u := [])
      (l := [']']) (y := '(') (z := ')') (by simp)
      (by intro d hd; simp at hd; subst hd; decide)
      (by intro d hd; simp at hd; subst hd; decide)
    refine ⟨n, ?_⟩
    unfold pVariableInCheck
    rw [bind_def, pbind_ok hsym, bind_def, pbind_ok hword, bind_def,
      pbind_err (by simpa using hn)]
  have h4 : pVariable ⟨p, formField f⟩ =
      .ok (.mf ⟨f, none, none⟩, ⟨some ']', []⟩) := by
    unfold pVariable
    rw [bind_def, pbind_ok hqf]
    rfl
  unfold pField
  exact palt_err_ok h1 (palt_err_ok h2 (palt_err_ok h3 (palt_ok h4)))


lemma checkContent_notQuoteEnd {f o : String}
    (hf : identOk f = true) (ho : identOk o = true) :
    ∀ c ∈ f.toList ++ ('(' :: (o.toList ++ [')'])), notQuoteEnd ']' c = true := by
  intro c hc
  simp at hc
  rcases hc with hc | rfl | hc | rfl
  · exact ident_notQuoteEnd hf ']' (by decide) c hc
  · decide
  · exact ident_notQuoteEnd ho ']' (by decide) c hc
  · decide


/-- `[field(option)]` is parsed by `variable_in_check` (`__create_my_check`):
field plus checkbox option, no event. -/
lemma pField_field_check (f o : String) {p : Option Char}
    (hf : identOk f = true) (ho : identOk o = true) :
    pField ⟨p, formFieldCheck f o⟩ =
      .ok (.mf ⟨f, none, some o⟩, ⟨some ']', []⟩) := by
  have hq1 : pQuoted '[' ']' ⟨p, formFieldCheck f o⟩ =
      .ok (String.mk (f.toList ++ ('(' :: (o.toList ++ [')']))), ⟨some ']', []⟩) := by
    have := pQuoted_run (p := p) (u := [])
      (t := f.toList ++ ('(' :: (o.toList ++ [')']))) (l := [])
      (y := '[') (z := ']')
      (by simp) (by decide) (checkContent_notQuoteEnd hf ho)
    simpa [formFieldCheck, List.append_assoc] using this
  have hsym : pSym '[' ⟨p, formFieldCheck f o⟩ =
      .ok ((), ⟨some '[', f.toList ++ ('(' :: (o.toList ++ (')' :: [']'])))⟩) := by
    have := pSym_run (p := p) (u := [])
      (l := f.toList ++ ('(' :: (o.toList ++ (')' :: [']'])))) '['
      (by simp) (by decide)
    simpa [formFieldCheck] using this
  have hword : pWordAlnum ⟨some '[', f.toList ++ ('(' :: (o.toList ++ (')' :: [']'])))⟩ =
      .ok (f, ⟨f.toList.getLast?, '(' :: (o.toList ++ (')' :: [']']))⟩) := by
    have := pWordAlnum_run (p := some '[') (u := []) (w := f.toList)
      (l := '(' :: (o.toList ++ (')' :: [']'])))
      (by simp) (identOk_ne hf) (identOk_all hf)
      (by intro c hc; simp at hc; subst hc; decide)
    simpa [mk_toList] using this
  have hqo : pQuoted '(' ')' ⟨f.toList.getLast?, '(' :: (o.toList ++ (')' :: [']']))⟩ =
      .ok (o, ⟨some ')', [']']⟩) := by
    have := pQuoted_run (p := f.toList.getLast?) (u := [])
      (t := o.toList) (l := [']']) (y := '(') (z := ')')
      (by simp) (by decide) (ident_notQuoteEnd ho ')' (by decide))
    simpa [mk_toList] using this
  have hsym2 : pSym ']' ⟨some ')', [']']⟩ = .ok ((), ⟨some ']', []⟩) := by
    have := pSym_run (p := some ')') (u := []) (l := []) ']' (by simp) (by decide)
    simpa using this
  have h1 : ∃ n, pVarcheckInEvent ⟨p, formFieldCheck f o⟩ = .error n := by
    obtain ⟨n, hn⟩ := pSym_fail (p := some ']') (u := []) (l := ([] : List Char))
      (c := '[') (by simp) (by simp) (by simp)
    refine ⟨n, ?_⟩
    unfold pVarcheckInEvent
    rw [bind_def, pbind_ok hq1, bind_def, pbind_err (by simpa using hn)]
  have h2 : ∃ n, pVariableInEvent ⟨p, formFieldCheck f o⟩ = .error n := by
    obtain ⟨n, hn⟩ := pQuoted_fail (p := some ']') (u := []) (l := ([] : List Char))
      (y := '[') (z := ']') (by simp) (by simp) (by simp)
    refine ⟨n, ?_⟩
    unfold pVariableInEvent
    rw [bind_def, pbind_ok hq1, bind_def, pbind_err (by simpa using hn)]
  have h3 : pVariableInCheck ⟨p, formFieldCheck f o⟩ =
      .ok (.mf ⟨f, none, some o⟩, ⟨some ']', []⟩) := by
    unfold pVariableInCheck
    rw [bind_def, pbind_ok hsym, bind_def, pbind_ok hword, bind_def,
      pbind_ok hqo, bind_def, pbind_ok hsym2]
    rfl
  unfold pField
  exact palt_err_ok h1 (palt_err_ok h2 (palt_ok h3))


/-- `[event][field(option)]` is parsed by `varcheck_in_event`
(`__create_my_event_check`): all three attributes are set. -/
lemma pField_event_field_check (e f o : String) {p : Option Char}
    (he : identOk e = true) (hf : identOk f = true) (ho : identOk o = true) :
    pField ⟨p, formEventFieldCheck e f o⟩ =
      .ok (.mf ⟨f, some e, some o⟩, ⟨some ']', []⟩) := by
  have hqe : pQuoted '[' ']' ⟨p, formEventFieldCheck e f o⟩ =
      .ok (e, ⟨some ']', '[' :: (f.toList ++ ('(' :: (o.toList ++ (')' :: [']']))))⟩) := by
    have := pQuoted_run (p := p) (u := []) (t := e.toList)
      (l := '[' :: (f.toList ++ ('(' :: (o.toList ++ (')' :: [']'])))))
      (y := '[') (z := ']')
      (by simp) (by decide) (ident_notQuoteEnd he ']' (by decide))
    simpa [formEventFieldCheck, mk_toList] using this
  have hsym : pSym '[' ⟨some ']', '[' :: (f.toList ++ ('(' :: (o.toList ++ (')' :: [']']))))⟩ =
      .ok ((), ⟨some '[', f.toList ++ ('(' :: (o.toList ++ (')' :: [']'])))⟩) := by
    have := pSym_run (p := some ']') (u := [])
      (l := f.toList ++ ('(' :: (o.toList ++ (')' :: [']'])))) '['
      (by simp) (by decide)
    simpa using this
  have hword : pWordAlnum ⟨some '[', f.toList ++ ('(' :: (o.toList ++ (')' :: [']'])))⟩ =
      .ok (f, ⟨f.toList.getLast?, '(' :: (o.toList ++ (')' :: [']']))⟩) := by
    have := pWordAlnum_run (p := some '[') (u := []) (w := f.toList)
      (l := '(' :: (o.toList ++ (')' :: [']'])))
      (by simp) (identOk_ne hf) (identOk_all hf)
      (by intro c hc; simp at hc; subst hc; decide)
    simpa [mk_toList] using this
  have hqo : pQuoted '(' ')' ⟨f.toList.getLast?, '(' :: (o.toList ++ (')' :: [']']))⟩ =
      .ok (o, ⟨some ')', [']']⟩) := by
    have := pQuoted_run (p := f.toList.getLast?) (u := [])
      (t := o.toList) (l := [']']) (y := '(') (z := ')')
      (by simp) (by decide) (ident_notQuoteEnd ho ')' (by decide))
    simpa [mk_toList] using this
  have hsym2 : pSym ']' ⟨some ')', [']']⟩ = .ok ((), ⟨some ']', []⟩) := by
    have := pSym_run (p := some ')') (u := []) (l := []) ']' (by simp) (by decide)
    simpa using this
  have h1 : pVarcheckInEvent ⟨p, formEventFieldCheck e f o⟩ =
      .ok (.mf ⟨f, some e, some o⟩, ⟨some ']', []⟩) := by
    unfold pVarcheckInEvent
    rw [bind_def, pbind_ok hqe, bind_def, pbind_ok hsym, bind_def,
      pbind_ok hword, bind_def, pbind_ok hqo, bind_def, pbind_ok hsym2]
    rfl
  unfold pField
  exact palt_ok h1


/-- C6: parsing the four field-reference surface forms `[event][field]`,
`[field(option)]`, `[event][field(option)]` and `[field]` yields a `myField`
with exactly the event-only, checkbox-only, combined and bare attribute
combinations respectively. -/
theorem c6_field_reference_forms (e f o : String) (p : Option Char)
    (he : identOk e = true) (hf : identOk f = true) (ho : identOk o = true) :
    pField ⟨p, formEventField e f⟩ = .ok (.mf ⟨f, some e, none⟩, ⟨some ']', []⟩)
    ∧ pField ⟨p, formFieldCheck f o⟩ = .ok (.mf ⟨f, none, some o⟩, ⟨some ']', []⟩)
    ∧ pField ⟨p, formEventFieldCheck e f o⟩ =
        .ok (.mf ⟨f, some e, some o⟩, ⟨some ']', []⟩)
    ∧ pField ⟨p, formField f⟩ = .ok (.mf ⟨f, none, none⟩, ⟨some ']', []⟩) :=
  ⟨pField_event_field e f he hf, pField_field_check f o hf ho,
   pField_event_field_check e f o he hf ho, pField_bare f hf⟩


theorem c6_field_reference_forms_witness :
    pField ⟨none, formEventField "event" "field"⟩ =
      .ok (.mf ⟨"field", some "event", none⟩, ⟨some ']', []⟩)
    ∧ pField ⟨none, formFieldCheck "field" "option"⟩ =
      .ok (.mf ⟨"field", none, some "option"⟩, ⟨some ']', []⟩)
    ∧ pField ⟨none, formEventFieldCheck "event" "field" "option"⟩ =
      .ok (.mf ⟨"field", some "event", some "option"⟩, ⟨some ']', []⟩)
    ∧ pField ⟨none, formField "field"⟩ =
      .ok (.mf ⟨"field", none, none⟩, ⟨some ']', []⟩) :=
  c6_field_reference_forms "event" "field" "option" none
    (by decide) (by decide) (by decide)


/-! ### Claim C9 -/

lemma ebind_ok {α β : Type} (a : α) (g : α → Except Err β) :
    (Except.ok a : Except Err α).bind g = g a := rfl


/-- C9: during substitution the `AND`/`OR` tokens are passed through
unchanged, while the `!` connective is dropped without being applied:
substituting the parse of `! C` gives the same boolean as substituting the
parse of `C`. -/
theorem c9_negation_not_applied (a : Atom)
    (hfa : identOk a.fld = true) (hla : litOk a.lit = true)
    (ds : DS) (v : String) (hv : ds a.fld = some v) :
    (∀ (c : String) (rest tail : List PTok), (c = "AND" ∨ c = "OR") →
      field_value_lookup rest ds = .ok tail →
      field_value_lookup (.s c :: rest) ds = .ok (.s c :: tail))
    ∧ (create_ast_as_list (String.mk ('!' :: renderAtomRest a []))).bind
        (fun t => field_value_lookup t ds)
      = (create_ast_as_list (String.mk (renderAtomRest a []))).bind
        (fun t => field_value_lookup t ds)
    ∧ (create_ast_as_list (String.mk (renderAtomRest a []))).bind
        (fun t => field_value_lookup t ds) = .ok [.b (evalCmpB a.cmp v a.lit)] := by
  refine ⟨?_, ?_, ?_⟩
  · rintro c rest tail (rfl | rfl) h
    exacts [fvl_and_cons h, fvl_or_cons h]
  · rw [create_ast_bang a hfa hla, create_ast_atom a hfa hla, ebind_ok, ebind_ok]
    unfold astAtom
    rw [fvl_bang_group ⟨a.fld, none, none⟩ a.cmp a.lit ds hv,
        fvl_atom_group ⟨a.fld, none, none⟩ a.cmp a.lit ds hv]
  · rw [create_ast_atom a hfa hla, ebind_ok]
    unfold astAtom
    rw [fvl_atom_group ⟨a.fld, none, none⟩ a.cmp a.lit ds hv]


theorem c9_negation_not_applied_witness :
    field_value_lookup [.s "AND"] dsAgeW = .ok [.s "AND"]
    ∧ (create_ast_as_list (String.mk ('!' :: renderAtomRest ⟨"age", .gt, "18"⟩ []))).bind
        (fun t => field_value_lookup t dsAgeW)
      = (create_ast_as_list (String.mk (renderAtomRest ⟨"age", .gt, "18"⟩ []))).bind
        (fun t => field_value_lookup t dsAgeW)
    ∧ (create_ast_as_list (String.mk (renderAtomRest ⟨"age", .gt, "18"⟩ []))).bind
        (fun t => field_value_lookup t dsAgeW) = .ok [.b (evalCmpB .gt "20" "18")] := by
  have h := c9_negation_not_applied ⟨"age", .gt, "18"⟩ (by decide) (by decide)
    dsAgeW "20" rfl
  exact ⟨h.1 "AND" [] [] (Or.inl rfl) (fvl_nil dsAgeW), h.2.1, h.2.2⟩


lemma bee_and_tree (x y : Bool) :
    boolean_expr_evaluate [.nest [.b x, .s "AND", .b y]] = .ok (x && y) := by
  cases x <;> cases y <;>
    simp [boolean_expr_evaluate, beeGo, beeStep, bool_op_lookup, popLast]


/-- C7: a comparison leaf is substituted by comparing the looked-up text
against the literal text with ordinary string-ordering semantics (`evalCmpB`
is string equality / inequality / lexicographic order), and the concrete
scenario `[status]='active' AND [age]>'18'` with
`{status: "active", age: "15"}` evaluates to `False` (lexicographically
`"15" > "18"` is false). -/
theorem c7_string_comparison_semantics :
    (∀ (m : myField) (o : CmpOp) (lit : String) (ds : DS) (v : String),
      ds m.field = some v →
      field_value_lookup [.nest [.mf m, .s (opCanon o), .s lit]] ds =
        .ok [.b (evalCmpB o v lit)])
    ∧ run_pipeline "[status]='active' AND [age]>'18'" ds7 = .ok false := by
  constructor
  · exact fun m o lit ds v hv => fvl_atom_group m o lit ds hv
  · have hast : create_ast_as_list "[status]='active' AND [age]>'18'" = .ok
      [.nest [.nest [.mf ⟨"status", none, none⟩, .s "=", .s "active"],
              .s "AND",
              .nest [.mf ⟨"age", none, none⟩, .s ">", .s "18"]]] := by rfl
    have hsub : field_value_lookup
        [.nest [.nest [.mf ⟨"status", none, none⟩, .s "=", .s "active"],
                .s "AND",
                .nest [.mf ⟨"age", none, none⟩, .s ">", .s "18"]]] ds7 =
        .ok [.nest [.b true, .s "AND", .b false]] := by
      have h1 : field_value_lookup
          [.nest [.mf ⟨"status", none, none⟩, .s "=", .s "active"],
           .s "AND",
           .nest [.mf ⟨"age", none, none⟩, .s ">", .s "18"]] ds7 =
          .ok [.b true, .s "AND", .b false] := by
        have := fvl_nest_cons
          (fvl_cmp ⟨"status", none, none⟩ .eq "active" ds7 (v := "active") rfl)
          (fvl_and_cons (fvl_atom_group ⟨"age", none, none⟩ .gt "18"
            ds7 (v := "15") rfl))
        rw [show evalCmpB .eq "active" "active" = true from by decide,
            show evalCmpB .gt "15" "18" = false from by decide] at this
        simpa [collapse1] using this
      have := fvl_nest_cons h1 (fvl_nil ds7)
      simpa [collapse1] using this
    rw [run_pipeline_ok hast hsub, bee_and_tree]
    rfl


theorem c7_string_comparison_semantics_witness :
    field_value_lookup [.nest [.mf ⟨"age", none, none⟩, .s (opCanon .gt), .s "18"]]
      dsAgeW = .ok [.b (evalCmpB .gt "20" "18")]
    ∧ run_pipeline "[status]='active' AND [age]>'18'" ds7 = .ok false :=
  ⟨c7_string_comparison_semantics.1 ⟨"age", none, none⟩ .gt "18" dsAgeW "20" rfl,
   c7_string_comparison_semantics.2⟩


/-! ### Claim C1 -/

/-- C1 (the code as written): `__parse` — the `self.parse` convenience entry
point — accepts only the expression string; after a successful parse it calls
`self.__field_value_lookup(ast_as_list)` without the required `data_df`
argument and so raises `TypeError` instead of composing the three stages; the
intended composition `run_pipeline` yields `True` on the same input. -/
theorem c1_parse_missing_data_source :
    parse "[age]>'18'" = .error .typeError
    ∧ run_pipeline "[age]>'18'" dsAgeW = .ok true := by
  have hast : create_ast_as_list "[age]>'18'" = .ok
      [.nest [.mf ⟨"age", none, none⟩, .s ">", .s "18"]] := by rfl
  constructor
  · unfold parse
    rw [hast]
  · have hsub : field_value_lookup
        [.nest [.mf ⟨"age", none, none⟩, .s ">", .s "18"]] dsAgeW =
        .ok [.b true] := by
      have := fvl_atom_group ⟨"age", none, none⟩ .gt "18"
        dsAgeW (v := "20") rfl
      rw [show evalCmpB .gt "20" "18" = true from by decide] at this
      exact this
    rw [run_pipeline_ok hast hsub, bee_single]


/-- C8 counterexample: a bare field reference whose bracketed name contains
`-`, a character outside `[A-Za-z0-9_]`, is parsed successfully — the
`variable` form is a `QuotedString` accepting any characters up to `]` — so
the claim that such input is rejected is false. -/
theorem c8_counterexample_nonidentifier_parses :
    create_ast_as_list "[a-b]='x'" =
      .ok [.nest [.mf ⟨"a-b", none, none⟩, .s "=", .s "x"]] := by rfl


/-- C8 (amended): every parse failure is a `SyntaxError`-class error carrying
an offending position, and a genuinely non-matching input fails with one at
position 0 — but the bare bracketed form accepts names with characters
outside the identifier class, such as `a-b`. -/
theorem c8_syntax_error_class :
    (∀ (s : String) (e : Err), create_ast_as_list s = .error e →
      isSyntaxErr e = true)
    ∧ create_ast_as_list "=[a]" = .error (.syntaxError 0)
    ∧ create_ast_as_list "[a-b]='x'" =
        .ok [.nest [.mf ⟨"a-b", none, none⟩, .s "=", .s "x"]] := by
  refine ⟨?_, by rfl, by rfl⟩
  intro s e h
  unfold create_ast_as_list at h
  dsimp only at h
  cases hres : pLevel (s.toList.length + 64) 4 ⟨none, s.toList⟩ with
  | ok r =>
    rw [hres] at h
    obtain ⟨t, st⟩ := r
    simp at h
  | error n =>
    rw [hres] at h
    simp at h
    rw [← h]
    rfl


theorem c8_syntax_error_class_witness :
    isSyntaxErr (.syntaxError 0) = true ∧
      create_ast_as_list "=[a]" = .error (.syntaxError 0) :=
  ⟨c8_syntax_error_class.1 "=[a]" (.syntaxError 0) c8_syntax_error_class.2.1,
   c8_syntax_error_class.2.1⟩


/-! ### Claim C10 -/

/-- C10: a well-formed input whose comparison's left-hand atom is a quoted
literal — `'x'='y'`, admitted by the grammar's `field` alternatives — parses
successfully; substitution drops every token of the comparison (none is a
`myField` or an `AND`/`OR` token) leaving an empty sub-sequence; and the
evaluator then fails with the out-of-range `IndexError` of `stack[0]` on its
empty stack, for every data source. -/
theorem c10_literal_lhs_empty_subsequence :
    create_ast_as_list "'x'='y'" = .ok [.nest [.s "x", .s "=", .s "y"]]
    ∧ (∀ ds : DS, field_value_lookup [.nest [.s "x", .s "=", .s "y"]] ds =
        .ok [.nest []])
    ∧ boolean_expr_evaluate [.nest []] = .error .indexError
    ∧ (∀ ds : DS, run_pipeline "'x'='y'" ds = .error .indexError) := by
  have h1 : create_ast_as_list "'x'='y'" = .ok [.nest [.s "x", .s "=", .s "y"]] := by rfl
  have h2 : ∀ ds : DS, field_value_lookup [.nest [.s "x", .s "=", .s "y"]] ds =
      .ok [.nest []] := by
    intro ds
    have hi : field_value_lookup [.s "x", .s "=", .s "y"] ds = .ok [] := by
      simp [field_value_lookup]
    have := fvl_nest_cons hi (fvl_nil ds)
    simpa [collapse1] using this
  have h3 : boolean_expr_evaluate [.nest []] = .error .indexError := by
    simp [boolean_expr_evaluate, beeGo, beeStep]
  exact ⟨h1, h2, h3, fun ds => by rw [run_pipeline_ok h1 (h2 ds), h3]⟩


/-! ### Claim C4 -/

lemma bee_eq (l : List PTok) :
    boolean_expr_evaluate l =
      (match beeGo l [] none with
       | .error e => .error e
       | .ok stack =>
         match stack.head? with
         | some r => .ok r
         | none => .error .indexError) := by
  simp [boolean_expr_evaluate]


/-- C4 counterexample: a sequence finishing with two residual values on the
stack — `[True, False]` — is not rejected: `return stack[0]` silently returns
the first value pushed. -/
theorem c4_counterexample_two_residuals :
    beeGo [.b true, .b false] [] none = .ok [true, false]
    ∧ boolean_expr_evaluate [.b true, .b false] = .ok true := by
  constructor
  · simp [beeGo, beeStep]
  · simp [boolean_expr_evaluate, beeGo, beeStep]


/-- C4 (amended): when the loop finishes with an empty stack, `stack[0]`
raises `IndexError`; when it finishes with one or more residual values, the
first value pushed is returned with no malformed-tree error. -/
theorem c4_empty_stack_error_many_residuals_first :
    (∀ l : List PTok, beeGo l [] none = .ok [] →
      boolean_expr_evaluate l = .error .indexError)
    ∧ (∀ (l : List PTok) (b : Bool) (bs : List Bool),
        beeGo l [] none = .ok (b :: bs) → boolean_expr_evaluate l = .ok b) := by
  constructor
  · intro l h
    rw [bee_eq, h]
    rfl
  · intro l b bs h
    rw [bee_eq, h]
    rfl


theorem c4_empty_stack_error_many_residuals_first_witness :
    beeGo ([] : List PTok) [] none = .ok []
    ∧ boolean_expr_evaluate ([] : List PTok) = .error .indexError
    ∧ beeGo [.b true, .b false] [] none = .ok [true, false]
    ∧ boolean_expr_evaluate [.b true, .b false] = .ok true := by
  have h1 : beeGo ([] : List PTok) [] none = .ok [] := by simp [beeGo]
  have h2 : beeGo [.b true, .b false] [] none = .ok [true, false] := by
    simp [beeGo, beeStep]
  exact ⟨h1, c4_empty_stack_error_many_residuals_first.1 [] h1, h2,
    c4_empty_stack_error_many_residuals_first.2 [.b true, .b false] true [false] h2⟩


lemma popLast_concat (s : List Bool) (x : Bool) :
    popLast (s ++ [x]) = some (x, s) := by
  simp [popLast, List.getLast?_concat, List.dropLast_concat]


lemma one_le_sizeOf_PTok (t : PTok) : 1 ≤ sizeOf t := by
  cases t <;> simp_arith


lemma beeGo_nil (s : List Bool) (pend : Option (Bool → Bool → Bool)) :
    beeGo [] s pend = .ok s := by simp [beeGo]


lemma beeGo_b (x : Bool) (rest : List PTok) (s : List Bool)
    (pend : Option (Bool → Bool → Bool)) :
    beeGo (.b x :: rest) s pend = beeStep rest (s ++ [x]) pend := by
  simp [beeGo]


lemma beeGo_nest (l rest : List PTok) (s : List Bool)
    (pend : Option (Bool → Bool → Bool)) :
    beeGo (.nest l :: rest) s pend =
      (match boolean_expr_evaluate l with
       | .error e => .error e
       | .ok v => beeStep rest (s ++ [v]) pend) := by
  simp [beeGo]


lemma beeGo_s (c : String) (rest : List PTok) (s : List Bool)
    (pend : Option (Bool → Bool → Bool)) :
    beeGo (.s c :: rest) s pend =
      (match bool_op_lookup c with
       | some f => beeGo rest s (some f)
       | none => .error .keyError) := by
  simp [beeGo]


lemma beeStep_none (rest : List PTok) (s : List Bool) :
    beeStep rest s none = beeGo rest s none := by simp [beeStep]


lemma beeStep_some (rest : List PTok) (s : List Bool) (f : Bool → Bool → Bool) :
    beeStep rest s (some f) =
      (match popLast s with
       | none => .error .indexError
       | some (left, s1) =>
         match popLast s1 with
         | none => .error .indexError
         | some (right, s2) => beeGo rest (s2 ++ [f left right]) none) := by
  simp [beeStep]


lemma c3_aux : ∀ n : Nat,
    (∀ l, sizeOf l ≤ n → WFSeq l → ∀ s : List Bool,
      ∃ b, denoteSeq l = some b ∧ beeGo l s none = .ok (s ++ [b]))
    ∧ (∀ l, sizeOf l ≤ n → WFTail l → ∀ (acc : Bool) (s : List Bool),
      ∃ b, denoteTail l acc = some b ∧ beeGo l (s ++ [acc]) none = .ok (s ++ [b])) := by
  intro n
  induction n using Nat.strong_induction_on with
  | _ n IH =>
    constructor
    · intro l hn hwf s
      cases hwf with
      | mk v rest hv ht =>
        have hvpos := one_le_sizeOf_PTok v
        have hsr : sizeOf rest < n := by
          simp [List.cons.sizeOf_spec] at hn; omega
        cases hv with
        | bval x =>
          have hd : denoteSeq (.b x :: rest) = denoteTail rest x := by
            simp [denoteSeq, denoteVal]
          obtain ⟨b, hb1, hb2⟩ := (IH (sizeOf rest) hsr).2 rest le_rfl ht x s
          exact ⟨b, by rw [hd]; exact hb1,
            by rw [beeGo_b, beeStep_none]; exact hb2⟩
        | nestval l' hl' =>
          have hsl : sizeOf l' < n := by
            simp [List.cons.sizeOf_spec, PTok.nest.sizeOf_spec] at hn; omega
          obtain ⟨w, hw1, hw2⟩ := (IH (sizeOf l') hsl).1 l' le_rfl hl' []
          rw [List.nil_append] at hw2
          have hev : boolean_expr_evaluate l' = .ok w := by
            rw [bee_eq, hw2]
            rfl
          have hd : denoteSeq (.nest l' :: rest) = denoteTail rest w := by
            simp [denoteSeq, denoteVal, hw1]
          obtain ⟨b, hb1, hb2⟩ := (IH (sizeOf rest) hsr).2 rest le_rfl ht w s
          refine ⟨b, by rw [hd]; exact hb1, ?_⟩
          rw [beeGo_nest, hev]
          dsimp only
          rw [beeStep_none]
          exact hb2
    · intro l hn hwf acc s
      cases hwf with
      | nil =>
        exact ⟨acc, by simp [denoteTail], by rw [beeGo_nil]⟩
      | cons c v rest hc hv ht =>
        obtain ⟨f, hf, happly⟩ : ∃ f, bool_op_lookup c = some f ∧
            ∀ x y, f x y = connApply c y x := by
          rcases hc with rfl | rfl
          · exact ⟨fun a b => a && b, by simp [bool_op_lookup],
              fun x y => by simp [connApply, Bool.and_comm]⟩
          · exact ⟨fun a b => a || b, by simp [bool_op_lookup],
              fun x y => by simp [connApply, Bool.or_comm]⟩
        have hvpos := one_le_sizeOf_PTok v
        have hsr : sizeOf rest < n := by
          simp [List.cons.sizeOf_spec] at hn; omega
        cases hv with
        | bval x =>
          have hd : denoteTail (.s c :: .b x :: rest) acc =
              denoteTail rest (connApply c acc x) := by
            simp [denoteTail, denoteVal]
          obtain ⟨b, hb1, hb2⟩ :=
            (IH (sizeOf rest) hsr).2 rest le_rfl ht (connApply c acc x) s
          refine ⟨b, by rw [hd]; exact hb1, ?_⟩
          rw [beeGo_s, hf]
          dsimp only
          rw [beeGo_b, beeStep_some, popLast_concat]
          dsimp only
          rw [popLast_concat]
          dsimp only
          rw [happly x acc]
          exact hb2
        | nestval l' hl' =>
          have hsl : sizeOf l' < n := by
            simp [List.cons.sizeOf_spec, PTok.nest.sizeOf_spec] at hn; omega
          obtain ⟨w, hw1, hw2⟩ := (IH (sizeOf l') hsl).1 l' le_rfl hl' []
          rw [List.nil_append] at hw2
          have hev : boolean_expr_evaluate l' = .ok w := by
            rw [bee_eq, hw2]
            rfl
          have hd : denoteTail (.s c :: .nest l' :: rest) acc =
              denoteTail rest (connApply c acc w) := by
            simp [denoteTail, denoteVal, hw1]
          obtain ⟨b, hb1, hb2⟩ :=
            (IH (sizeOf rest) hsr).2 rest le_rfl ht (connApply c acc w) s
          refine ⟨b, by rw [hd]; exact hb1, ?_⟩
          rw [beeGo_s, hf]
          dsimp only
          rw [beeGo_nest, hev]
          dsimp only
          rw [beeStep_some, popLast_concat]
          dsimp only
          rw [popLast_concat]
          dsimp only
          rw [happly w acc]
          exact hb2


/-- C3: on every sequence obeying the alternation invariant the evaluator's
left-to-right stack loop (booleans pushed, nested sequences recursively
evaluated and pushed, connectives recorded as pending and applied — `AND` as
conjunction, `OR` as disjunction — right after the next push) finishes with
exactly one value on the stack, equal to the reference left-to-right fold
`denoteSeq`, and `boolean_expr_evaluate` returns it. -/
theorem c3_stack_loop_single_residual (l : List PTok) (h : WFSeq l) :
    (denoteSeq l).isSome = true
    ∧ ∀ b : Bool, denoteSeq l = some b →
        beeGo l [] none = .ok [b] ∧ boolean_expr_evaluate l = .ok b := by
  obtain ⟨b, h1, h2⟩ := (c3_aux (sizeOf l)).1 l le_rfl h []
  rw [List.nil_append] at h2
  constructor
  · rw [h1]; rfl
  · intro b2 hb2
    rw [h1] at hb2
    cases hb2
    exact ⟨h2, by rw [bee_eq, h2]; rfl⟩


theorem c3_stack_loop_single_residual_witness :
    (denoteSeq [.b true, .s "AND", .b false]).isSome = true
    ∧ beeGo [.b true, .s "AND", .b false] [] none = .ok [false]
    ∧ boolean_expr_evaluate [.b true, .s "AND", .b false] = .ok false := by
  have hwf : WFSeq [.b true, .s "AND", .b false] :=
    WFSeq.mk _ _ (WFVal.bval true)
      (WFTail.cons "AND" _ _ (Or.inl rfl) (WFVal.bval false) WFTail.nil)
  have h := c3_stack_loop_single_residual [.b true, .s "AND", .b false] hwf
  have hden : denoteSeq [.b true, .s "AND", .b false] = some false := by
    simp [denoteSeq, denoteVal, denoteTail, connApply]
  exact ⟨h.1, (h.2 false hden).1, (h.2 false hden).2⟩


lemma fvl_nest_cons_eq (l rest : List PTok) (ds : DS) :
    field_value_lookup (.nest l :: rest) ds =
      (match field_value_lookup l ds with
       | .error e => .error e
       | .ok inner =>
         match field_value_lookup rest ds with
         | .error e => .error e
         | .ok tail => .ok (collapse1 inner :: tail)) := by
  rw [show field_value_lookup (.nest l :: rest) ds =
    (match field_value_lookup l ds with
     | .error e => .error e
     | .ok inner_layer =>
       let item := match inner_layer with
         | [x] => x
         | _ => PTok.nest inner_layer
       match field_value_lookup rest ds with
       | .error e => .error e
       | .ok tail => .ok (item :: tail)) from by simp [field_value_lookup]]
  cases h1 : field_value_lookup l ds with
  | error e => rfl
  | ok inner =>
    cases h2 : field_value_lookup rest ds with
    | error e => rfl
    | ok tail =>
      dsimp only
      cases inner with
      | nil => rfl
      | cons a as => cases as <;> rfl


lemma fvl_conn_cons_eq (c : String) (hc : (c = "AND" || c = "OR") = true)
    (rest : List PTok) (ds : DS) :
    field_value_lookup (.s c :: rest) ds =
      (match field_value_lookup rest ds with
       | .error e => .error e
       | .ok tail => .ok (.s c :: tail)) := by
  simp [field_value_lookup, hc]


lemma fvl_skip_cons (c : String) (hc : (c = "AND" || c = "OR") = false)
    (rest : List PTok) (ds : DS) :
    field_value_lookup (.s c :: rest) ds = field_value_lookup rest ds := by
  simp [field_value_lookup, hc]


lemma fvl_mf_cons (m : myField) (nxt expected : PTok) (rest2 : List PTok)
    (ds : DS) :
    field_value_lookup (.mf m :: nxt :: expected :: rest2) ds =
      (match cmp_op_lookup nxt with
       | .error e => .error e
       | .ok operator =>
         match redcap_lookup m.field ds with
         | .error e => .error e
         | .ok field_value =>
           match apply_cmp operator field_value expected with
           | .error e => .error e
           | .ok field_result => .ok [PTok.b field_result]) := by
  simp [field_value_lookup]


lemma cmp_op_lookup_of_mem {o : String}
    (ho : o = "=" ∨ o = "<>" ∨ o = "<" ∨ o = ">" ∨ o = "<=" ∨ o = ">=") :
    ∃ op, cmp_op_lookup (.s o) = .ok op := by
  rcases ho with rfl | rfl | rfl | rfl | rfl | rfl <;> exact ⟨_, rfl⟩


lemma apply_cmp_total (op : CmpOp) (v e : String) :
    ∃ r, apply_cmp op v (.s e) = .ok r := by
  cases op <;> exact ⟨_, rfl⟩


lemma c5_aux : ∀ n : Nat,
    (∀ x, sizeOf x ≤ n → PItem x → ∀ (ds : DS) (inner : List PTok),
      x = .nest inner →
      (hasBadTok ds x = true → field_value_lookup inner ds = .error .lookupError)
      ∧ (hasBadTok ds x = false → ∃ r, field_value_lookup inner ds = .ok r))
    ∧ (∀ l, sizeOf l ≤ n → PSeqTree l → ∀ ds : DS,
      (hasBadList ds l = true → field_value_lookup l ds = .error .lookupError)
      ∧ (hasBadList ds l = false → ∃ r, field_value_lookup l ds = .ok r)) := by
  intro n
  induction n using Nat.strong_induction_on with
  | _ n IH =>
    constructor
    · intro x hn hitem ds inner hx
      cases hitem with
      | cmp m o lit ho =>
        cases hx
        obtain ⟨op, hop⟩ := cmp_op_lookup_of_mem ho
        have hbad : hasBadTok ds (.nest [.mf m, .s o, .s lit]) =
            (ds m.field).isNone := by
          simp [hasBadTok, hasBadList]
        constructor
        · intro hb
          rw [hbad] at hb
          have hmiss : ds m.field = none := by
            cases hdm : ds m.field with
            | none => rfl
            | some v => rw [hdm] at hb; simp at hb
          rw [fvl_mf_cons, hop]
          dsimp only
          unfold redcap_lookup
          rw [hmiss]
        · intro hb
          rw [hbad] at hb
          obtain ⟨v, hv⟩ : ∃ v, ds m.field = some v := by
            cases hdm : ds m.field with
            | none => rw [hdm] at hb; simp at hb
            | some v => exact ⟨v, rfl⟩
          obtain ⟨r, hr⟩ := apply_cmp_total op v lit
          refine ⟨[.b r], ?_⟩
          rw [fvl_mf_cons, hop]
          dsimp only
          unfold redcap_lookup
          rw [hv]
          dsimp only
          rw [hr]
      | notg y hy =>
        cases hx
        have hypos := one_le_sizeOf_PTok y
        have hsy : sizeOf y < n := by
          simp [List.cons.sizeOf_spec, PTok.nest.sizeOf_spec] at hn; omega
        obtain ⟨iny, hiny⟩ : ∃ iny, y = .nest iny := by
          cases hy with
          | cmp m o lit ho => exact ⟨_, rfl⟩
          | notg z hz => exact ⟨_, rfl⟩
          | grp l hl => exact ⟨_, rfl⟩
        have hitem := (IH (sizeOf y) hsy).1 y le_rfl hy ds iny hiny
        have hbad : hasBadTok ds (.nest [.s "!", y]) = hasBadTok ds y := by
          simp [hasBadTok, hasBadList]
        have hskip : field_value_lookup [.s "!", y] ds =
            field_value_lookup [y] ds :=
          fvl_skip_cons "!" (by decide) [y] ds
        subst hiny
        constructor
        · intro hb
          rw [hbad] at hb
          rw [hskip, fvl_nest_cons_eq, hitem.1 hb]
        · intro hb
          rw [hbad] at hb
          obtain ⟨r, hr⟩ := hitem.2 hb
          refine ⟨[collapse1 r], ?_⟩
          rw [hskip, fvl_nest_cons_eq, hr, fvl_nil]
      | grp l2 hl2 =>
        have hinj : l2 = inner := by injection hx
        subst hinj
        have hsl : sizeOf l2 < n := by
          simp [PTok.nest.sizeOf_spec] at hn; omega
        have := (IH (sizeOf l2) hsl).2 l2 le_rfl hl2 ds
        have hbad : hasBadTok ds (.nest l2) = hasBadList ds l2 := by
          simp [hasBadTok]
        rw [hbad]
        exact this
    · intro l hn hseq ds
      cases hseq with
      | one x hx =>
        have hxpos := one_le_sizeOf_PTok x
        have hsx : sizeOf x < n := by
          simp [List.cons.sizeOf_spec] at hn; omega
        obtain ⟨inx, hinx⟩ : ∃ inx, x = .nest inx := by
          cases hx with
          | cmp m o lit ho => exact ⟨_, rfl⟩
          | notg z hz => exact ⟨_, rfl⟩
          | grp l2 hl2 => exact ⟨_, rfl⟩
        have hitem := (IH (sizeOf x) hsx).1 x le_rfl hx ds inx hinx
        have hbad : hasBadList ds [x] = hasBadTok ds x := by
          simp [hasBadList]
        subst hinx
        rw [hbad]
        constructor
        · intro hb
          rw [fvl_nest_cons_eq, hitem.1 hb]
        · intro hb
          obtain ⟨r, hr⟩ := hitem.2 hb
          exact ⟨[collapse1 r], by rw [fvl_nest_cons_eq, hr, fvl_nil]⟩
      | cons x c rest hx hc hrest =>
        have hxpos := one_le_sizeOf_PTok x
        have hsx : sizeOf x < n := by
          simp [List.cons.sizeOf_spec] at hn; omega
        have hsr : sizeOf rest < n := by
          simp [List.cons.sizeOf_spec] at hn; omega
        obtain ⟨inx, hinx⟩ : ∃ inx, x = .nest inx := by
          cases hx with
          | cmp m o lit ho => exact ⟨_, rfl⟩
          | notg z hz => exact ⟨_, rfl⟩
          | grp l2 hl2 => exact ⟨_, rfl⟩
        have hitem := (IH (sizeOf x) hsx).1 x le_rfl hx ds inx hinx
        have hrest2 := (IH (sizeOf rest) hsr).2 rest le_rfl hrest ds
        have hcb : (c = "AND" || c = "OR") = true := by
          rcases hc with rfl | rfl <;> decide
        have hbadtok_s : hasBadTok ds (.s c) = false := by simp [hasBadTok]
        have hbad : hasBadList ds (x :: .s c :: rest) =
            (hasBadTok ds x || hasBadList ds rest) := by
          rw [show hasBadList ds (x :: .s c :: rest) =
            (hasBadTok ds x || hasBadList ds (.s c :: rest)) from by
              simp [hasBadList]]
          rw [show hasBadList ds (.s c :: rest) =
            (hasBadTok ds (.s c) || hasBadList ds rest) from by
              simp [hasBadList]]
          rw [hbadtok_s]
          simp
        subst hinx
        rw [hbad]
        constructor
        · intro hb
          rw [fvl_nest_cons_eq]
          cases hbx : hasBadTok ds (.nest inx) with
          | true => rw [hitem.1 hbx]
          | false =>
            obtain ⟨r, hr⟩ := hitem.2 hbx
            rw [hr]
            have hbr : hasBadList ds rest = true := by
              rw [hbx] at hb
              simpa using hb
            rw [fvl_conn_cons_eq c hcb, hrest2.1 hbr]
        · intro hb
          have hbx : hasBadTok ds (.nest inx) = false := by
            cases hbx : hasBadTok ds (.nest inx) with
            | false => rfl
            | true => rw [hbx] at hb; simp at hb
          have hbr : hasBadList ds rest = false := by
            rw [hbx] at hb
            simpa using hb
          obtain ⟨r, hr⟩ := hitem.2 hbx
          obtain ⟨t, htl⟩ := hrest2.2 hbr
          exact ⟨collapse1 r :: .s c :: t,
            by rw [fvl_nest_cons_eq, hr, fvl_conn_cons_eq c hcb, htl]⟩


/-- C5: for every parse-shaped expression tree containing a field reference
whose name the data source cannot resolve, the Substitution Stage fails with
the `LookupError`-class error of `data_df[field_name]` — no boolean tree is
produced and no default value is substituted. -/
theorem c5_lookup_failure_aborts (x : PTok) (hx : PItem x) (ds : DS)
    (hbad : hasBadTok ds x = true) :
    field_value_lookup [x] ds = .error .lookupError := by
  have h := (c5_aux (sizeOf [x])).2 [x] le_rfl (PSeqTree.one x hx) ds
  exact h.1 (by simpa [hasBadList] using hbad)


theorem c5_lookup_failure_aborts_witness :
    hasBadTok (fun _ => none) (.nest [.mf ⟨"a", none, none⟩, .s "=", .s "1"]) = true
    ∧ field_value_lookup [.nest [.mf ⟨"a", none, none⟩, .s "=", .s "1"]]
        (fun _ => none) = .error .lookupError := by
  have hb : hasBadTok (fun _ => none)
      (.nest [.mf ⟨"a", none, none⟩, .s "=", .s "1"]) = true := by
    simp [hasBadTok, hasBadList]
  exact ⟨hb, c5_lookup_failure_aborts _
    (PItem.cmp ⟨"a", none, none⟩ "=" "1" (Or.inl rfl)) (fun _ => none) hb⟩


end BLP

